import Mathlib

/-!
# 3c509 contention select (`src/drivers/net/3c509.c`)

A shallow embedding of the ISA 3c509 enumeration code: the ID-port search,
the ID sequence, the serial EEPROM read and the per-card enumeration step,
with the port primitives replaced by an explicit record of the port traffic.

Machine integers are natural numbers with explicit reduction: `uint16_t`
values modulo `65536`, `unsigned char` values modulo `256`.
-/

namespace T509

/-! ## Port primitives (`io.h`, `timer.h`) -/

/-- One access to an I/O port, as seen on the bus. -/
inductive PortEvent where
  | outb (value port : Nat)
  | inb (port : Nat)
  | inw (port : Nat)
  deriving DecidableEq, Repr

/-- The outside world of the driver: `input n` is the value the bus presents
to the `n`-th port read, `nread` counts the reads performed so far, and `log`
is the port traffic so far, oldest access first. -/
structure IoPorts where
  input : Nat → Nat
  nread : Nat
  log : List PortEvent

/-- Byte-wide port write: only the low eight bits of `value` reach the port. -/
def outb (value port : Nat) (io : IoPorts) : IoPorts :=
  { io with log := io.log ++ [PortEvent.outb (value % 256) port] }

/-- Byte-wide port read. -/
def inb (port : Nat) (io : IoPorts) : Nat × IoPorts :=
  (io.input io.nread % 256,
   { io with nread := io.nread + 1, log := io.log ++ [PortEvent.inb port] })

/-- Word-wide port read. -/
def inw (port : Nat) (io : IoPorts) : Nat × IoPorts :=
  (io.input io.nread % 65536,
   { io with nread := io.nread + 1, log := io.log ++ [PortEvent.inw port] })

/-- Busy-wait delay: it touches no port. -/
def udelay (_usecs : Nat) (io : IoPorts) : IoPorts := io

/-! ## Constants of `3c509.h` and `isa.h`

The header is not part of the sources at hand, so its constants are
parameters of the embedding. -/

/-- The macros the driver takes from its headers. -/
structure Config where
  EP_ID_PORT_START : Nat
  EP_ID_PORT_END : Nat
  EP_ID_PORT_INC : Nat
  EEPROM_MFG_ID : Int
  EEPROM_ADDR_CFG : Int
  MFG_ID : Nat
  PROD_ID : Nat
  ISA_BUS_TYPE : Nat
  /-- Address of the `t509_magic` symbol. -/
  t509_magic : Nat

/-! ## Data model -/

/-- The `struct t509_device`: `magic` is a pointer, `id_port` and `ioaddr`
are `uint16_t`, `current_tag` is an `unsigned char`. -/
structure t509_device where
  magic : Nat
  id_port : Nat
  ioaddr : Nat
  current_tag : Nat
  deriving DecidableEq, Repr

/-! ## `find_id_port` -/

/-- The `for` loop of `find_id_port`, entered after the initialisation of
`id_port`.  The loop has no bound of its own, so the embedding runs it on
`fuel`: `none` means the fuel ran out before the loop left. -/
def find_id_port_loop (cfg : Config) :
    Nat → t509_device → IoPorts → Option (Nat × t509_device × IoPorts)
  | 0, _, _ => none
  | fuel + 1, t509, io =>
    if t509.id_port < cfg.EP_ID_PORT_END then
      let io1 := outb 0x00 t509.id_port io
      let io2 := outb 0xff t509.id_port io1
      let r := inb t509.id_port io2
      if r.1 &&& 0x01 ≠ 0 then
        some (1, t509, r.2)
      else
        find_id_port_loop cfg fuel
          { t509 with id_port := (t509.id_port + cfg.EP_ID_PORT_INC) % 65536 } r.2
    else
      some (0, t509, io)

/-- Find a port that can be used for contention select. -/
def find_id_port (cfg : Config) (fuel : Nat) (t509 : t509_device) (io : IoPorts) :
    Option (Nat × t509_device × IoPorts) :=
  find_id_port_loop cfg fuel
    { t509 with id_port := cfg.EP_ID_PORT_START % 65536 } io

/-! ## `send_id_sequence` -/

/-- The body of the loop of `send_id_sequence`, run `n` more times;
`lrs_state` is an `unsigned short`. -/
def send_id_sequence_loop (port : Nat) : Nat → Nat → IoPorts → IoPorts
  | 0, _, io => io
  | n + 1, lrs_state, io =>
    let io1 := outb lrs_state port io
    let shifted := (lrs_state <<< 1) % 65536
    let next := if shifted &&& 0x100 ≠ 0 then shifted ^^^ 0xcf else shifted
    send_id_sequence_loop port n next io1

/-- Send ID sequence to the ID port. -/
def send_id_sequence (t509 : t509_device) (io : IoPorts) : IoPorts :=
  let io1 := outb 0x00 t509.id_port io
  let io2 := outb 0x00 t509.id_port io1
  send_id_sequence_loop t509.id_port 255 0xff io2

/-! ## `id_read_eeprom` -/

/-- The read loop of `id_read_eeprom`, run `n` more times.  `data` is an
`int` that starts at `0` and is shifted sixteen times, so it stays below
`2 ^ 16` and the `int` arithmetic is exact. -/
def id_read_eeprom_loop (port : Nat) : Nat → Nat → IoPorts → Nat × IoPorts
  | 0, data, io => (data, io)
  | n + 1, data, io =>
    let r := inw port io
    id_read_eeprom_loop port n ((data <<< 1) ||| (r.1 &&& 1)) r.2

/-- Read one EEPROM word through the ID port.  The command `0x80 + offset` is
an `int` handed to the byte-wide `outb`; the result is returned as
`uint16_t`. -/
def id_read_eeprom (t509 : t509_device) (offset : Int) (io : IoPorts) : Nat × IoPorts :=
  let io1 := outb (Int.toNat ((0x80 + offset) % 256)) t509.id_port io
  let io2 := udelay 10000 io1
  let r := id_read_eeprom_loop t509.id_port 16 0 io2
  (r.1 % 65536, r.2)

/-! ## `fill_t509_device` -/

/-- The contention-select loop of `fill_t509_device`: EEPROM words
`i, i + 1, ...` are read `n` times and their values dropped. -/
def contention_select (t509 : t509_device) : Nat → Int → IoPorts → IoPorts
  | 0, _, io => io
  | n + 1, i, io => contention_select t509 n (i + 1) (id_read_eeprom t509 i io).2

/-- The part of `fill_t509_device` after the ID port is known (from the tag
command to the end of the function). -/
def fill_t509_device_scan (cfg : Config) (t509 : t509_device) (io : IoPorts) :
    Nat × t509_device × IoPorts :=
  let io1 :=
    if t509.current_tag = 0 then outb 0xd0 t509.id_port io
    else outb 0xd8 t509.id_port io
  let io2 := send_id_sequence t509 io1
  let mfg := id_read_eeprom t509 cfg.EEPROM_MFG_ID io2
  if mfg.1 ≠ cfg.MFG_ID then
    (0, t509, mfg.2)
  else
    let io3 := contention_select t509 3 0 mfg.2
    let cfgw := id_read_eeprom t509 cfg.EEPROM_ADDR_CFG io3
    let iobase := cfgw.1
    let t1 := { t509 with ioaddr := (0x200 + ((iobase &&& 0x1f) <<< 4)) % 65536 }
    let t2 := { t1 with current_tag := (t1.current_tag + 1) % 256 }
    let io4 := outb t2.current_tag t2.id_port cfgw.2
    let io5 := outb (0xe0 ||| iobase) t2.id_port io4
    (1, t2, io5)

/-- Find the next t509 device.  The result is `none` only when the ID-port
search ran out of fuel. -/
def fill_t509_device (cfg : Config) (fuel : Nat) (t509 : t509_device) (io : IoPorts) :
    Option (Nat × t509_device × IoPorts) :=
  if t509.id_port = 0 then
    match find_id_port cfg fuel t509 io with
    | none => none
    | some (found, t1, io1) =>
      if found = 0 then some (0, t1, io1)
      else some (fill_t509_device_scan cfg t1 io1)
  else
    some (fill_t509_device_scan cfg t509 io)

/-! ## `find_t509_device` and `find_t509_boot_device` -/

/-- The `struct t509_driver`: the name of the driver. -/
structure t509_driver where
  name : String
  deriving DecidableEq, Repr

/-- Modelled from the spec: the device identity inside the device record of
the absent `dev.h`, with the three fields that `find_t509_boot_device`
writes: bus-type tag, vendor id and device id. -/
structure dev_id where
  bus_type : Nat
  vendor_id : Nat
  device_id : Nat
  deriving DecidableEq, Repr

/-- Modelled from the spec: the device record (`struct dev` of the absent
`dev.h`) as far as this file uses it: display name, device identity, and the
bus state, which `DEV_BUS` lays out as the `struct t509_device` of the
session. -/
structure dev where
  name : String
  devid : dev_id
  bus : t509_device
  deriving DecidableEq, Repr

/-- Find a t509 device matching the specified driver: the session is zeroed
and marked on first use, then `fill_t509_device` looks for the next card. -/
def find_t509_device (cfg : Config) (fuel : Nat) (t509 : t509_device)
    (_driver : t509_driver) (io : IoPorts) : Option (Nat × t509_device × IoPorts) :=
  let t1 :=
    if t509.magic ≠ cfg.t509_magic then
      let cleared : t509_device := { magic := 0, id_port := 0, ioaddr := 0, current_tag := 0 }
      { cleared with magic := cfg.t509_magic }
    else t509
  match fill_t509_device cfg fuel t1 io with
  | none => none
  | some (r, t2, io1) => if r = 0 then some (0, t2, io1) else some (1, t2, io1)

/-- Find the next T509 device that can be used to boot using the specified
driver.  The session lives in the bus state of the device record. -/
def find_t509_boot_device (cfg : Config) (fuel : Nat) (d : dev) (driver : t509_driver)
    (io : IoPorts) : Option (Nat × dev × IoPorts) :=
  match find_t509_device cfg fuel d.bus driver io with
  | none => none
  | some (r, t1, io1) =>
    let d1 := { d with bus := t1 }
    if r = 0 then some (0, d1, io1)
    else
      let d2 := { d1 with name := driver.name }
      let d3 := { d2 with devid := { d2.devid with bus_type := cfg.ISA_BUS_TYPE } }
      let d4 := { d3 with devid := { d3.devid with vendor_id := cfg.MFG_ID } }
      let d5 := { d4 with devid := { d4.devid with device_id := cfg.PROD_ID } }
      some (1, d5, io1)

/-! ## Reference definitions used to state the properties -/

/-- The bus after `n` more reads and the further traffic `events`. -/
def IoPorts.advance (io : IoPorts) (n : Nat) (events : List PortEvent) : IoPorts :=
  { input := io.input, nread := io.nread + n, log := io.log ++ events }

/-- One step of the byte-wide recurrence of the ID sequence: shift the byte
left by one bit and XOR with `0xcf` exactly when a bit is carried into
bit 8; the result is again a byte. -/
def lrs_next (b : Nat) : Nat :=
  let shifted := b <<< 1
  (if shifted &&& 0x100 ≠ 0 then shifted ^^^ 0xcf else shifted) % 256

/-- The `k`-th byte of the ID sequence: seed `0xff`, then the byte-wide
recurrence. -/
def id_byte : Nat → Nat
  | 0 => 0xff
  | k + 1 => lrs_next (id_byte k)

/-- The port traffic of one ID sequence: two zero bytes, then the 255 bytes
of the recurrence. -/
def id_sequence_events (port : Nat) : List PortEvent :=
  PortEvent.outb 0x00 port :: PortEvent.outb 0x00 port ::
    (List.range 255).map (fun k => PortEvent.outb (id_byte k) port)

/-- The word made of the low bits of `f 0, ..., f (n - 1)`, the first one
being the most significant. -/
def msb_word : Nat → (Nat → Nat) → Nat
  | 0, _ => 0
  | n + 1, f => (f 0 % 2) * 2 ^ n + msb_word n (fun i => f (i + 1))

/-- The 16-bit word that the sixteen port reads starting at read number
`pos` assemble. -/
def eeprom_word (input : Nat → Nat) (pos : Nat) : Nat :=
  msb_word 16 (fun i => input (pos + i))

/-- The byte that `outb` puts on the bus for the EEPROM read command
`0x80 + offset`. -/
def eeprom_command (offset : Int) : Nat :=
  Int.toNat ((0x80 + offset) % 256)

/-- The port traffic of one EEPROM word read: the command byte, then sixteen
word reads. -/
def eeprom_events (port : Nat) (offset : Int) : List PortEvent :=
  PortEvent.outb (eeprom_command offset) port :: List.replicate 16 (PortEvent.inw port)

/-- The port traffic of one probe of the ID-port search. -/
def probe_events (port : Nat) : List PortEvent :=
  [PortEvent.outb 0x00 port, PortEvent.outb 0xff port, PortEvent.inb port]

/-- The port traffic of the probes of the addresses `ports`, in order. -/
def probes : List Nat → List PortEvent
  | [] => []
  | port :: rest => probe_events port ++ probes rest

/-- The first `n` candidate addresses `start, start + step, ...`. -/
def candidates (start step n : Nat) : List Nat :=
  (List.range n).map (fun i => start + i * step)

/-- The number of candidate addresses `start, start + step, ...` below
`stop`: `ceil ((stop - start) / step)`, and none when `stop ≤ start`. -/
def candidate_count (start stop step : Nat) : Nat :=
  (stop - start + step - 1) / step

/-- The tag command: `0xd0` at the start of a scan, `0xd8` afterwards. -/
def tag_command (t509 : t509_device) : Nat :=
  if t509.current_tag = 0 then 0xd0 else 0xd8

/-- The port traffic of a scan up to and including the read of the
manufacturer ID: tag command, ID sequence, one EEPROM word read. -/
def scan_prefix_events (cfg : Config) (t509 : t509_device) : List PortEvent :=
  PortEvent.outb (tag_command t509) t509.id_port ::
    (id_sequence_events t509.id_port ++ eeprom_events t509.id_port cfg.EEPROM_MFG_ID)

/-- The port traffic of a scan that finds a card whose address configuration
word is `iobase`. -/
def scan_success_events (cfg : Config) (t509 : t509_device) (iobase : Nat) : List PortEvent :=
  scan_prefix_events cfg t509 ++
    (eeprom_events t509.id_port 0 ++ (eeprom_events t509.id_port 1 ++
      (eeprom_events t509.id_port 2 ++ (eeprom_events t509.id_port cfg.EEPROM_ADDR_CFG ++
        [PortEvent.outb ((t509.current_tag + 1) % 256) t509.id_port,
         PortEvent.outb ((0xe0 ||| iobase) % 256) t509.id_port]))))

/-- The session after a scan that finds a card whose address configuration
word is `iobase`. -/
def tagged (t509 : t509_device) (iobase : Nat) : t509_device :=
  { t509 with
    ioaddr := (0x200 + ((iobase &&& 0x1f) <<< 4)) % 65536
    current_tag := (t509.current_tag + 1) % 256 }

/-- Repeated enumeration, as the bus framework drives it: `n` calls of
`fill_t509_device` one after the other on the same session and the same bus;
the result lists the values the calls returned, oldest first. -/
def fill_n (cfg : Config) (fuel : Nat) :
    Nat → t509_device → IoPorts → Option (List Nat × t509_device × IoPorts)
  | 0, t509, io => some ([], t509, io)
  | n + 1, t509, io =>
    match fill_n cfg fuel n t509 io with
    | none => none
    | some (rs, t1, io1) =>
      match fill_t509_device cfg fuel t1 io1 with
      | none => none
      | some (r, t2, io2) => some (rs ++ [r], t2, io2)

/-- The session after `k` more cards have been found, the scans starting at
read number `pos` and each scan taking eighty reads. -/
def after_cards (t509 : t509_device) (input : Nat → Nat) (pos : Nat) : Nat → t509_device
  | 0 => t509
  | k + 1 => tagged (after_cards t509 input pos k) (eeprom_word input (pos + 80 * k + 64))

/-- The port traffic of `k` scans that each find a card. -/
def cards_events (cfg : Config) (t509 : t509_device) (input : Nat → Nat) (pos : Nat) :
    Nat → List PortEvent
  | 0 => []
  | k + 1 =>
    cards_events cfg t509 input pos k ++
      scan_success_events cfg (after_cards t509 input pos k)
        (eeprom_word input (pos + 80 * k + 64))

/-- The I/O address that the address configuration word `iobase` encodes. -/
def io_address (iobase : Nat) : Nat :=
  0x200 + ((iobase &&& 0x1f) <<< 4)

/-- A zeroed session, as `memset` leaves it. -/
def zeroed (magic : Nat) : t509_device :=
  { magic := magic, id_port := 0, ioaddr := 0, current_tag := 0 }

/-- A bus on which nothing has happened yet and whose reads will return
`input 0, input 1, ...`. -/
def bus (input : Nat → Nat) : IoPorts :=
  { input := input, nread := 0, log := [] }

/-- Bit `i` of the 16-bit word `w`, bit `0` being the most significant. -/
def word_bit (w i : Nat) : Nat :=
  (w >>> (15 - i)) % 2

/-- Reads that present the words `words` one after the other, each over
sixteen reads, most significant bit first; zero once the words are used up. -/
def present (words : List Nat) (n : Nat) : Nat :=
  word_bit (words.getD (n / 16) 0) (n % 16)

/-- Reads that first give `answers` (to the probes of the ID-port search) and
then present `words`. -/
def responder (answers words : List Nat) (n : Nat) : Nat :=
  if n < answers.length then answers.getD n 0 else present words (n - answers.length)

/-- Sample values of the header constants: ID ports `0x110, 0x120, ...`
below `0x200`, manufacturer ID `0x6d50` at EEPROM offset 7, address
configuration at offset 8. -/
def sample_config : Config :=
  { EP_ID_PORT_START := 0x110
    EP_ID_PORT_END := 0x200
    EP_ID_PORT_INC := 0x10
    EEPROM_MFG_ID := 7
    EEPROM_ADDR_CFG := 8
    MFG_ID := 0x6d50
    PROD_ID := 0x9150
    ISA_BUS_TYPE := 1
    t509_magic := 0x1000 }

/-- Reads for a bus with 256 cards behind the first candidate port: the
probe is answered, then the next `80 * 256` reads repeat the bits of the
word `0x6d50`, and all later reads are zero. -/
def many_cards_input (n : Nat) : Nat :=
  if n = 0 then 1 else if n ≤ 80 * 256 then word_bit 0x6d50 ((n - 1) % 16) else 0

/-- Reads for a bus with two cards behind the first candidate port: the probe
is answered, then each card in turn presents the manufacturer ID, three
address words and its address configuration word (`0x05`, then `0x12`);
after that the bus reads as zero. -/
def two_cards_input : Nat → Nat :=
  responder [1]
    [0x6d50, 0x0020, 0xafb1, 0x2c3d, 0x05,
     0x6d50, 0x0020, 0xafb1, 0x2c3e, 0x12]

/-- The session after the first call on the two-card bus. -/
def first_card : t509_device :=
  { magic := 0, id_port := 0x110, ioaddr := 0x250, current_tag := 1 }

/-- The bus after the first call on the two-card bus: one probe, then a scan
that finds the card with configuration word `0x05`. -/
def first_bus : IoPorts :=
  (bus two_cards_input).advance 81
    (probes [0x110] ++
      scan_success_events sample_config { zeroed 0 with id_port := 0x110 } 0x05)

/-- The session after the second call on the two-card bus. -/
def second_card : t509_device :=
  { magic := 0, id_port := 0x110, ioaddr := 0x320, current_tag := 2 }

/-- The bus after the second call on the two-card bus. -/
def second_bus : IoPorts :=
  first_bus.advance 80 (scan_success_events sample_config first_card 0x12)

/-- The bus after the third call on the two-card bus, which finds no card. -/
def third_bus : IoPorts :=
  second_bus.advance 16 (scan_prefix_events sample_config second_card)

/-- Header constants whose ID-port range runs past the end of the 16-bit
port space: one candidate, `0xfff0`, lies below the end `0xffff`. -/
def wrapping_config : Config :=
  { sample_config with
    EP_ID_PORT_START := 0xfff0
    EP_ID_PORT_END := 0xffff
    EP_ID_PORT_INC := 0x20 }

/-- Header constants whose ID-port range has step zero. -/
def stuck_config : Config :=
  { sample_config with EP_ID_PORT_INC := 0 }

/-- A bus whose reads are all zero. -/
def silent_bus : IoPorts :=
  bus (fun _ => 0)

/-- The call of `fill_t509_device` on `t509` and `io` has an arbitration
port: either `id_port` is set at entry, or the ID-port search of this call
finds one.  `ta` and `ioa` are the session and the bus at the point where the
port is known. -/
def has_id_port (cfg : Config) (fuel : Nat) (t509 : t509_device) (io : IoPorts)
    (ta : t509_device) (ioa : IoPorts) : Prop :=
  (t509.id_port ≠ 0 ∧ ta = t509 ∧ ioa = io) ∨
  (t509.id_port = 0 ∧ ∃ found, found ≠ 0 ∧ find_id_port cfg fuel t509 io = some (found, ta, ioa))

/-- Reads for one scan of a bus whose card has the address configuration
word `0x0100`, a word with a bit set above the low byte. -/
def wide_config_input : Nat → Nat :=
  present [0x6d50, 0x0020, 0xafb1, 0x2c3d, 0x0100]

/-- The number of calls, among those that returned `rs`, that found a card. -/
def successes (rs : List Nat) : Nat :=
  rs.countP (fun r => r ≠ 0)

/-- The session as `find_t509_device` hands it to `fill_t509_device`: zeroed
and marked when the marker was not set, untouched otherwise. -/
def first_use (cfg : Config) (t509 : t509_device) : t509_device :=
  if t509.magic ≠ cfg.t509_magic then zeroed cfg.t509_magic else t509

/-- The port that a port access goes to. -/
def PortEvent.port : PortEvent → Nat
  | PortEvent.outb _ port => port
  | PortEvent.inb port => port
  | PortEvent.inw port => port

/-- Whether a port access is a write. -/
def PortEvent.is_write : PortEvent → Bool
  | PortEvent.outb _ _ => true
  | _ => false

/-- Whether a port access is a read. -/
def PortEvent.is_read : PortEvent → Bool
  | PortEvent.outb _ _ => false
  | _ => true

/-- Whether a port access is a byte read, the read of a probe. -/
def PortEvent.is_inb : PortEvent → Bool
  | PortEvent.inb _ => true
  | _ => false

/-- The sample driver descriptor. -/
def el3_t509_driver : t509_driver :=
  { name := "3c509 (ISA)" }

/-- A device record that has not been used: empty name, zero identity, and a
bus state whose marker is not the one of `sample_config`. -/
def blank_dev : dev :=
  { name := "", devid := { bus_type := 0, vendor_id := 0, device_id := 0 },
    bus := { magic := 0, id_port := 0x3f0, ioaddr := 0x1234, current_tag := 9 } }

/-- Reads like those of `two_cards_input`, but with other address words for
the first card. -/
def other_address_input : Nat → Nat :=
  responder [1]
    [0x6d50, 0xffff, 0x0000, 0x1234, 0x05,
     0x6d50, 0x0020, 0xafb1, 0x2c3e, 0x12]

/-- Header constants whose range start does not fit the 16-bit `id_port`:
start `0x10005`, end `0x000a`, step 1.  The start is not below the end, so
the range has no candidate. -/
def high_start_config : Config :=
  { sample_config with
    EP_ID_PORT_START := 0x10005
    EP_ID_PORT_END := 0x000a
    EP_ID_PORT_INC := 1 }

/-- A bus whose reads all return 1: the first probe is answered, and every
EEPROM word reads as `0xffff`. -/
def all_ones_bus : IoPorts :=
  bus (fun _ => 1)

/-! ## Port traffic lemmas -/

@[simp] theorem outb_input (v p : Nat) (io : IoPorts) : (outb v p io).input = io.input := rfl
@[simp] theorem outb_nread (v p : Nat) (io : IoPorts) : (outb v p io).nread = io.nread := rfl
@[simp] theorem outb_log (v p : Nat) (io : IoPorts) :
    (outb v p io).log = io.log ++ [PortEvent.outb (v % 256) p] := rfl

theorem and_256_eq (a : Nat) : a &&& 0x100 = (a % 512) &&& 0x100 := by
  have h := Nat.and_pow_two_sub_one_eq_mod a 9
  have h2 : (0x100 : Nat) = 511 &&& 0x100 := by decide
  norm_num at h
  rw [← h, Nat.and_assoc, ← h2]

theorem xor_mod_256 (s c : Nat) : (s ^^^ c) % 256 = (s % 256) ^^^ (c % 256) := by
  have h := fun a => Nat.and_pow_two_sub_one_eq_mod a 8
  norm_num at h
  rw [← h, ← h, ← h, Nat.and_xor_distrib_right]

theorem lrs_low_byte (x : Nat) :
    (if (x <<< 1) % 65536 &&& 0x100 ≠ 0 then (x <<< 1) % 65536 ^^^ 0xcf
      else (x <<< 1) % 65536) % 256 = lrs_next (x % 256) := by
  have h1 : (x <<< 1) % 65536 &&& 0x100 = ((x % 256) <<< 1) &&& 0x100 := by
    rw [and_256_eq, and_256_eq ((x % 256) <<< 1)]
    congr 1
    simp only [Nat.shiftLeft_eq]
    omega
  have h3 : (x <<< 1) % 65536 % 256 = ((x % 256) <<< 1) % 256 := by
    simp only [Nat.shiftLeft_eq]
    omega
  unfold lrs_next
  simp only [h1]
  split_ifs
  · rw [xor_mod_256, h3, ← xor_mod_256]
  · exact h3

theorem advance_advance (io : IoPorts) (a b : Nat) (es fs : List PortEvent) :
    (io.advance a es).advance b fs = io.advance (a + b) (es ++ fs) := by
  simp [IoPorts.advance, Nat.add_assoc]

theorem advance_zero_nil (io : IoPorts) : io.advance 0 [] = io := by
  simp [IoPorts.advance]

theorem outb_eq_advance (v p : Nat) (io : IoPorts) :
    outb v p io = io.advance 0 [PortEvent.outb (v % 256) p] := rfl

theorem inb_eq_advance (p : Nat) (io : IoPorts) :
    inb p io = (io.input io.nread % 256, io.advance 1 [PortEvent.inb p]) := rfl

theorem inw_eq_advance (p : Nat) (io : IoPorts) :
    inw p io = (io.input io.nread % 65536, io.advance 1 [PortEvent.inw p]) := rfl

@[simp] theorem advance_input (io : IoPorts) (n : Nat) (es : List PortEvent) :
    (io.advance n es).input = io.input := rfl
@[simp] theorem advance_nread (io : IoPorts) (n : Nat) (es : List PortEvent) :
    (io.advance n es).nread = io.nread + n := rfl
@[simp] theorem advance_log (io : IoPorts) (n : Nat) (es : List PortEvent) :
    (io.advance n es).log = io.log ++ es := rfl

/-! ### The ID sequence -/

theorem send_id_sequence_loop_eq (port : Nat) :
    ∀ (n lrs k : Nat) (io : IoPorts), lrs % 256 = id_byte k →
      send_id_sequence_loop port n lrs io =
        io.advance 0 ((List.range n).map (fun j => PortEvent.outb (id_byte (k + j)) port)) := by
  intro n
  induction n with
  | zero => intro lrs k io _; simp [send_id_sequence_loop, advance_zero_nil]
  | succ n ih =>
    intro lrs k io h
    have hstep := lrs_low_byte lrs
    rw [h] at hstep
    simp only [send_id_sequence_loop]
    rw [ih _ (k + 1) _ hstep, outb_eq_advance, advance_advance, h, List.range_succ_eq_map]
    simp only [List.map_cons, List.map_map, Nat.add_zero, List.singleton_append]
    congr 3
    funext j
    simp only [Function.comp, Nat.succ_eq_add_one]
    congr 2
    omega

theorem send_id_sequence_eq (t509 : t509_device) (io : IoPorts) :
    send_id_sequence t509 io = io.advance 0 (id_sequence_events t509.id_port) := by
  simp only [send_id_sequence]
  rw [send_id_sequence_loop_eq t509.id_port 255 0xff 0 _ (by rfl)]
  simp only [outb_eq_advance, advance_advance, id_sequence_events, Nat.zero_add,
    Nat.zero_mod, List.cons_append, List.nil_append]

/-! ### The EEPROM word read -/

theorem msb_word_lt : ∀ (n : Nat) (f : Nat → Nat), msb_word n f < 2 ^ n := by
  intro n
  induction n with
  | zero => intro f; simp [msb_word]
  | succ n ih =>
    intro f
    have h1 := ih (fun i => f (i + 1))
    have h2 : f 0 % 2 < 2 := Nat.mod_lt _ (by decide)
    simp only [msb_word, pow_succ]
    nlinarith

theorem msb_word_congr : ∀ (n : Nat) (f g : Nat → Nat),
    (∀ i, i < n → f i % 2 = g i % 2) → msb_word n f = msb_word n g := by
  intro n
  induction n with
  | zero => intro f g _; rfl
  | succ n ih =>
    intro f g h
    simp only [msb_word]
    rw [h 0 (Nat.succ_pos n), ih (fun i => f (i + 1)) (fun i => g (i + 1))
      (fun i hi => h (i + 1) (Nat.succ_lt_succ hi))]

theorem shift_or_bit (data v : Nat) : (data <<< 1) ||| (v % 65536 &&& 1) = 2 * data + v % 2 := by
  have hb : v % 65536 &&& 1 = v % 2 := by rw [Nat.and_one_is_mod]; omega
  have hlt : v % 2 < 2 ^ 1 := Nat.mod_lt _ (by decide)
  have h := Nat.mul_add_lt_is_or hlt data
  rw [hb, Nat.shiftLeft_eq]
  simp only [pow_one] at h
  rw [Nat.mul_comm data 2]
  exact h.symm

theorem id_read_eeprom_loop_eq (port : Nat) :
    ∀ (n data : Nat) (io : IoPorts),
      id_read_eeprom_loop port n data io =
        (data * 2 ^ n + msb_word n (fun i => io.input (io.nread + i)),
         io.advance n (List.replicate n (PortEvent.inw port))) := by
  intro n
  induction n with
  | zero => intro data io; simp [id_read_eeprom_loop, msb_word, advance_zero_nil]
  | succ n ih =>
    intro data io
    simp only [id_read_eeprom_loop, inw_eq_advance]
    rw [ih, shift_or_bit, advance_advance]
    simp only [advance_input, advance_nread, msb_word, Nat.add_zero]
    have hf : (fun i => io.input (io.nread + 1 + i)) = (fun i => io.input (io.nread + (i + 1))) := by
      funext i; congr 1; omega
    rw [hf, Nat.add_comm 1 n, List.replicate_succ]
    simp only [List.singleton_append]
    congr 1
    rw [pow_succ]; ring

theorem id_read_eeprom_eq (t509 : t509_device) (offset : Int) (io : IoPorts) :
    id_read_eeprom t509 offset io =
      (eeprom_word io.input io.nread, io.advance 16 (eeprom_events t509.id_port offset)) := by
  simp only [id_read_eeprom, udelay, id_read_eeprom_loop_eq, outb_eq_advance, advance_advance,
    advance_input, advance_nread, Nat.zero_mul, Nat.zero_add, Nat.add_zero]
  have hlt := msb_word_lt 16 (fun i => io.input (io.nread + i))
  have hmod : Int.toNat ((0x80 + offset) % 256) % 256 = Int.toNat ((0x80 + offset) % 256) := by
    apply Nat.mod_eq_of_lt
    omega
  rw [hmod]
  simp only [eeprom_word, eeprom_events, eeprom_command, List.singleton_append]
  rw [Nat.mod_eq_of_lt (by simpa using hlt)]

theorem msb_word_testBit : ∀ (n : Nat) (f : Nat → Nat) (i : Nat), i < n →
    (msb_word n f).testBit (n - 1 - i) = (f i).testBit 0 := by
  intro n
  induction n with
  | zero => intro f i hi; omega
  | succ n ih =>
    intro f i hi
    have hlt := msb_word_lt n (fun i => f (i + 1))
    simp only [msb_word]
    rw [Nat.mul_comm, Nat.testBit_mul_pow_two_add _ hlt]
    cases i with
    | zero =>
      have h1 : ¬ (n + 1 - 1 - 0 < n) := by omega
      have h2 : n + 1 - 1 - 0 - n = 0 := by omega
      rw [if_neg h1, h2]
      simp only [Nat.testBit_zero, Nat.mod_mod]
    | succ i =>
      have h1 : n + 1 - 1 - (i + 1) < n := by omega
      have h2 : n + 1 - 1 - (i + 1) = n - 1 - i := by omega
      rw [if_pos h1, h2]
      exact ih (fun i => f (i + 1)) i (by omega)

theorem msb_word_of_bits (n : Nat) (f : Nat → Nat) (w : Nat) (hw : w < 2 ^ n)
    (h : ∀ i, i < n → f i % 2 = (w >>> (n - 1 - i)) % 2) : msb_word n f = w := by
  apply Nat.eq_of_testBit_eq
  intro j
  rcases Nat.lt_or_ge j n with hj | hj
  · have hb := msb_word_testBit n f (n - 1 - j) (by omega)
    have hj2 : n - 1 - (n - 1 - j) = j := by omega
    rw [hj2] at hb
    have hf := h (n - 1 - j) (by omega)
    rw [hj2] at hf
    rw [hb, Nat.testBit_zero, hf, Nat.testBit_to_div_mod, Nat.shiftRight_eq_div_pow]
  · have hpow : 2 ^ n ≤ 2 ^ j := Nat.pow_le_pow_right (by decide) hj
    rw [Nat.testBit_lt_two_pow (Nat.lt_of_lt_of_le (msb_word_lt n f) hpow),
      Nat.testBit_lt_two_pow (Nat.lt_of_lt_of_le hw hpow)]

/-! ### The scan -/

theorem contention_select_eq (t509 : t509_device) (io : IoPorts) :
    contention_select t509 3 0 io =
      io.advance 48 (eeprom_events t509.id_port 0 ++ (eeprom_events t509.id_port 1 ++
        eeprom_events t509.id_port 2)) := by
  simp only [contention_select, id_read_eeprom_eq, advance_advance, List.append_assoc]
  rfl

theorem tag_command_eq (t509 : t509_device) (io : IoPorts) :
    (if t509.current_tag = 0 then outb 0xd0 t509.id_port io else outb 0xd8 t509.id_port io) =
      io.advance 0 [PortEvent.outb (tag_command t509) t509.id_port] := by
  unfold tag_command
  split_ifs <;> rfl

theorem fill_t509_device_scan_eq (cfg : Config) (t509 : t509_device) (io : IoPorts) :
    fill_t509_device_scan cfg t509 io =
      if eeprom_word io.input io.nread ≠ cfg.MFG_ID then
        (0, t509, io.advance 16 (scan_prefix_events cfg t509))
      else
        (1, tagged t509 (eeprom_word io.input (io.nread + 64)),
          io.advance 80
            (scan_success_events cfg t509 (eeprom_word io.input (io.nread + 64)))) := by
  simp only [fill_t509_device_scan, tag_command_eq]
  simp only [send_id_sequence_eq, id_read_eeprom_eq, contention_select_eq, advance_advance,
    advance_input, advance_nread, outb_eq_advance, Nat.zero_add, Nat.add_zero]
  split_ifs with h
  · simp [scan_prefix_events]
  · have hmod : (t509.current_tag + 1) % 256 % 256 = (t509.current_tag + 1) % 256 :=
      Nat.mod_mod _ _
    simp [scan_success_events, scan_prefix_events, tagged, hmod]

/-! ### The ID-port search -/

theorem candidates_succ (start step n : Nat) :
    candidates start step (n + 1) = start :: candidates (start + step) step n := by
  simp only [candidates, List.range_succ_eq_map, List.map_cons, List.map_map, Nat.zero_mul,
    Nat.add_zero, List.cons.injEq, true_and]
  apply List.map_congr_left
  intro i _
  simp only [Function.comp, Nat.succ_eq_add_one]
  ring

theorem candidates_succ_right (start step n : Nat) :
    candidates start step (n + 1) = candidates start step n ++ [start + n * step] := by
  simp [candidates, List.range_succ]

theorem probes_append (ps qs : List Nat) : probes (ps ++ qs) = probes ps ++ probes qs := by
  induction ps with
  | nil => rfl
  | cons p ps ih => simp [probes, ih]

theorem inb_bit (v : Nat) : (v % 256 &&& 0x01 ≠ 0) ↔ v % 2 = 1 := by
  rw [Nat.and_one_is_mod]
  omega

/-- Probes that find no response: `j` candidates are passed over. -/
theorem find_id_port_loop_skip (cfg : Config) :
    ∀ (j fuel : Nat) (t509 : t509_device) (io : IoPorts),
      (∀ i, i < j → t509.id_port + i * cfg.EP_ID_PORT_INC < cfg.EP_ID_PORT_END) →
      t509.id_port + j * cfg.EP_ID_PORT_INC < 65536 →
      (∀ i, i < j → io.input (io.nread + i) % 2 = 0) →
      find_id_port_loop cfg (fuel + j) t509 io =
        find_id_port_loop cfg fuel
          { t509 with id_port := t509.id_port + j * cfg.EP_ID_PORT_INC }
          (io.advance j (probes (candidates t509.id_port cfg.EP_ID_PORT_INC j))) := by
  intro j
  induction j with
  | zero =>
    intro fuel t509 io _ _ _
    simp [candidates, probes, advance_zero_nil]
  | succ j ih =>
    intro fuel t509 io hlt hwrap hin
    have h0 : t509.id_port < cfg.EP_ID_PORT_END := by simpa using hlt 0 (Nat.succ_pos j)
    have hr : ¬ (io.input io.nread % 256 &&& 0x01 ≠ 0) := by
      rw [inb_bit]
      have := hin 0 (Nat.succ_pos j)
      simp only [Nat.add_zero] at this
      omega
    have hstep : (t509.id_port + cfg.EP_ID_PORT_INC) % 65536 =
        t509.id_port + cfg.EP_ID_PORT_INC := by
      apply Nat.mod_eq_of_lt
      have : (j + 1) * cfg.EP_ID_PORT_INC = j * cfg.EP_ID_PORT_INC + cfg.EP_ID_PORT_INC := by
        ring
      omega
    have hfuel : fuel + (j + 1) = (fuel + j) + 1 := by omega
    rw [hfuel]
    simp only [find_id_port_loop, h0, if_true, inb_eq_advance, outb_eq_advance, advance_advance,
      advance_input, advance_nread, Nat.add_zero, hr, if_false, hstep]
    rw [ih]
    · have e1 : t509.id_port + cfg.EP_ID_PORT_INC + j * cfg.EP_ID_PORT_INC =
          t509.id_port + (j + 1) * cfg.EP_ID_PORT_INC := by ring
      simp only [advance_advance, candidates_succ, probes, probe_events, e1, Nat.add_comm 1 j,
        List.cons_append, List.nil_append]
    · intro i hi
      have := hlt (i + 1) (Nat.succ_lt_succ hi)
      have e : (i + 1) * cfg.EP_ID_PORT_INC = i * cfg.EP_ID_PORT_INC + cfg.EP_ID_PORT_INC := by
        ring
      simp only at this ⊢
      omega
    · have e : (j + 1) * cfg.EP_ID_PORT_INC = j * cfg.EP_ID_PORT_INC + cfg.EP_ID_PORT_INC := by
        ring
      simp only
      omega
    · intro i hi
      have := hin (i + 1) (Nat.succ_lt_succ hi)
      simp only [advance_input, advance_nread]
      rw [← this]
      congr 2
      omega

/-- The search stops at the first candidate that answers. -/
theorem find_id_port_loop_found (cfg : Config) (j fuel : Nat) (t509 : t509_device)
    (io : IoPorts) (hfuel : j < fuel)
    (hlt : t509.id_port + j * cfg.EP_ID_PORT_INC < cfg.EP_ID_PORT_END)
    (hwrap : t509.id_port + j * cfg.EP_ID_PORT_INC < 65536)
    (hin : ∀ i, i < j → io.input (io.nread + i) % 2 = 0)
    (hj : io.input (io.nread + j) % 2 = 1) :
    find_id_port_loop cfg fuel t509 io =
      some (1, { t509 with id_port := t509.id_port + j * cfg.EP_ID_PORT_INC },
        io.advance (j + 1) (probes (candidates t509.id_port cfg.EP_ID_PORT_INC (j + 1)))) := by
  obtain ⟨f, rfl⟩ : ∃ f, fuel = (f + 1) + j := ⟨fuel - j - 1, by omega⟩
  have hlt2 : ∀ i, i < j → t509.id_port + i * cfg.EP_ID_PORT_INC < cfg.EP_ID_PORT_END := by
    intro i hi
    have : i * cfg.EP_ID_PORT_INC ≤ j * cfg.EP_ID_PORT_INC :=
      Nat.mul_le_mul_right _ (Nat.le_of_lt hi)
    omega
  rw [find_id_port_loop_skip cfg j (f + 1) t509 io hlt2 hwrap hin]
  have hr : io.input (io.nread + j) % 256 &&& 0x01 ≠ 0 := (inb_bit _).2 hj
  simp only [find_id_port_loop, hlt, if_true, inb_eq_advance, outb_eq_advance, advance_advance,
    advance_input, advance_nread, Nat.add_zero, candidates_succ_right, probes_append, probes,
    probe_events, List.append_nil, List.cons_append, List.nil_append]
  rw [if_pos hr]
  simp

/-- The search fails once the candidates are used up. -/
theorem find_id_port_loop_exhausted (cfg : Config) (j fuel : Nat) (t509 : t509_device)
    (io : IoPorts) (hfuel : j < fuel)
    (hlt : ∀ i, i < j → t509.id_port + i * cfg.EP_ID_PORT_INC < cfg.EP_ID_PORT_END)
    (hend : cfg.EP_ID_PORT_END ≤ t509.id_port + j * cfg.EP_ID_PORT_INC)
    (hwrap : t509.id_port + j * cfg.EP_ID_PORT_INC < 65536)
    (hin : ∀ i, i < j → io.input (io.nread + i) % 2 = 0) :
    find_id_port_loop cfg fuel t509 io =
      some (0, { t509 with id_port := t509.id_port + j * cfg.EP_ID_PORT_INC },
        io.advance j (probes (candidates t509.id_port cfg.EP_ID_PORT_INC j))) := by
  obtain ⟨f, rfl⟩ : ∃ f, fuel = (f + 1) + j := ⟨fuel - j - 1, by omega⟩
  rw [find_id_port_loop_skip cfg j (f + 1) t509 io hlt hwrap hin]
  have hn : ¬ (t509.id_port + j * cfg.EP_ID_PORT_INC < cfg.EP_ID_PORT_END) := by omega
  simp only [find_id_port_loop, hn, if_false]

theorem candidate_count_below (start stop step i : Nat) (hstep : 0 < step)
    (hi : i < candidate_count start stop step) : start + i * step < stop := by
  unfold candidate_count at hi
  have h1 : (i + 1) * step ≤ (stop - start + step - 1) / step * step :=
    Nat.mul_le_mul_right _ hi
  have h2 := Nat.div_mul_le_self (stop - start + step - 1) step
  have h3 : (i + 1) * step = i * step + step := by ring
  omega

theorem candidate_count_reach (start stop step : Nat) (hstep : 0 < step) :
    stop ≤ start + candidate_count start stop step * step := by
  unfold candidate_count
  have h1 := Nat.div_add_mod (stop - start + step - 1) step
  have h2 := Nat.mod_lt (stop - start + step - 1) hstep
  rw [Nat.mul_comm] at h1
  omega

theorem candidate_count_bound (start stop step : Nat) :
    start + candidate_count start stop step * step < max start stop + step ∨
      candidate_count start stop step = 0 := by
  unfold candidate_count
  rcases Nat.eq_zero_or_pos step with h | hstep
  · right; subst h; simp
  · left
    have h2 := Nat.div_mul_le_self (stop - start + step - 1) step
    rcases Nat.le_total stop start with h | h
    · rw [Nat.max_eq_left h]; omega
    · rw [Nat.max_eq_right h]; omega

/-- On a range with positive step inside the 16-bit port space, a search in
which no candidate answers probes them all and returns 0. -/
theorem find_id_port_exhausted (cfg : Config) (fuel : Nat) (t509 : t509_device)
    (io : IoPorts) (hstep : 0 < cfg.EP_ID_PORT_INC) (hstart : cfg.EP_ID_PORT_START < 65536)
    (hend : cfg.EP_ID_PORT_END + cfg.EP_ID_PORT_INC ≤ 65536)
    (hquiet : ∀ i,
      i < candidate_count cfg.EP_ID_PORT_START cfg.EP_ID_PORT_END cfg.EP_ID_PORT_INC →
        io.input (io.nread + i) % 2 = 0)
    (hfuel : candidate_count cfg.EP_ID_PORT_START cfg.EP_ID_PORT_END cfg.EP_ID_PORT_INC <
      fuel) :
    find_id_port cfg fuel t509 io =
      some (0,
        { t509 with id_port := cfg.EP_ID_PORT_START +
            candidate_count cfg.EP_ID_PORT_START cfg.EP_ID_PORT_END cfg.EP_ID_PORT_INC *
              cfg.EP_ID_PORT_INC },
        io.advance
          (candidate_count cfg.EP_ID_PORT_START cfg.EP_ID_PORT_END cfg.EP_ID_PORT_INC)
          (probes (candidates cfg.EP_ID_PORT_START cfg.EP_ID_PORT_INC
            (candidate_count cfg.EP_ID_PORT_START cfg.EP_ID_PORT_END
              cfg.EP_ID_PORT_INC)))) := by
  have hmod : cfg.EP_ID_PORT_START % 65536 = cfg.EP_ID_PORT_START := Nat.mod_eq_of_lt hstart
  have hreach := candidate_count_reach cfg.EP_ID_PORT_START cfg.EP_ID_PORT_END
    cfg.EP_ID_PORT_INC hstep
  have hbound := candidate_count_bound cfg.EP_ID_PORT_START cfg.EP_ID_PORT_END
    cfg.EP_ID_PORT_INC
  have h := find_id_port_loop_exhausted cfg
    (candidate_count cfg.EP_ID_PORT_START cfg.EP_ID_PORT_END cfg.EP_ID_PORT_INC) fuel
    { t509 with id_port := cfg.EP_ID_PORT_START % 65536 } io hfuel
    (by
      intro i hi
      simpa [hmod] using candidate_count_below _ _ _ i hstep hi)
    (by simpa [hmod] using hreach)
    (by
      simp only [hmod]
      rcases hbound with hb | hb
      · rcases Nat.le_total cfg.EP_ID_PORT_END cfg.EP_ID_PORT_START with hle | hle
        · rw [Nat.max_eq_left hle] at hb
          have hz : candidate_count cfg.EP_ID_PORT_START cfg.EP_ID_PORT_END
              cfg.EP_ID_PORT_INC = 0 := by
            unfold candidate_count
            apply Nat.div_eq_of_lt
            omega
          rw [hz]; omega
        · rw [Nat.max_eq_right hle] at hb
          omega
      · rw [hb]; omega)
    hquiet
  simpa [find_id_port, hmod] using h

theorem candidate_count_empty (start stop step : Nat) (hstep : 0 < step)
    (h : stop ≤ start) : candidate_count start stop step = 0 := by
  unfold candidate_count
  apply Nat.div_eq_of_lt
  omega

theorem probes_writes : ∀ (ports : List Nat) (v p : Nat),
    PortEvent.outb v p ∈ probes ports → (v = 0x00 ∨ v = 0xff) ∧ p ∈ ports := by
  intro ports
  induction ports with
  | nil => intro v p h; simp [probes] at h
  | cons q qs ih =>
    intro v p h
    simp only [probes, probe_events, List.cons_append, List.nil_append, List.mem_cons] at h
    rcases h with h | h | h | h
    · simp only [PortEvent.outb.injEq] at h
      exact ⟨Or.inl h.1, by simp [h.2]⟩
    · simp only [PortEvent.outb.injEq] at h
      exact ⟨Or.inr h.1, by simp [h.2]⟩
    · cases h
    · have := ih v p h
      exact ⟨this.1, List.mem_cons_of_mem _ this.2⟩

/-! ### `fill_t509_device` with and without a known ID port -/

theorem fill_t509_device_known (cfg : Config) (fuel : Nat) (t509 : t509_device) (io : IoPorts)
    (h : t509.id_port ≠ 0) :
    fill_t509_device cfg fuel t509 io = some (fill_t509_device_scan cfg t509 io) := by
  simp [fill_t509_device, h]

theorem io_address_lt (iobase : Nat) : io_address iobase < 65536 := by
  have h : iobase &&& 0x1f ≤ 0x1f := Nat.and_le_right
  unfold io_address
  rw [Nat.shiftLeft_eq]
  omega

theorem tagged_ioaddr (t509 : t509_device) (iobase : Nat) :
    (tagged t509 iobase).ioaddr = io_address iobase := by
  simp only [tagged, io_address]
  exact Nat.mod_eq_of_lt (io_address_lt iobase)

/-! ### Repeated enumeration -/

theorem after_cards_id_port (t509 : t509_device) (input : Nat → Nat) (pos : Nat) :
    ∀ k, (after_cards t509 input pos k).id_port = t509.id_port := by
  intro k
  induction k with
  | zero => rfl
  | succ k ih => simpa [after_cards, tagged] using ih

theorem after_cards_magic (t509 : t509_device) (input : Nat → Nat) (pos : Nat) :
    ∀ k, (after_cards t509 input pos k).magic = t509.magic := by
  intro k
  induction k with
  | zero => rfl
  | succ k ih => simpa [after_cards, tagged] using ih

theorem after_cards_current_tag (t509 : t509_device) (input : Nat → Nat) (pos : Nat) :
    ∀ k, (after_cards t509 input pos k).current_tag % 256 = (t509.current_tag + k) % 256 := by
  intro k
  induction k with
  | zero => rfl
  | succ k ih =>
    simp only [after_cards, tagged]
    omega

theorem after_cards_succ_current_tag (t509 : t509_device) (input : Nat → Nat) (pos k : Nat) :
    (after_cards t509 input pos (k + 1)).current_tag = (t509.current_tag + (k + 1)) % 256 := by
  have h := after_cards_current_tag t509 input pos k
  simp only [after_cards, tagged]
  omega

theorem after_cards_succ_ioaddr (t509 : t509_device) (input : Nat → Nat) (pos k : Nat) :
    (after_cards t509 input pos (k + 1)).ioaddr =
      io_address (eeprom_word input (pos + 80 * k + 64)) := by
  simp only [after_cards, tagged_ioaddr]

/-- If the next `k` scans all read the manufacturer ID, `k` calls find `k` cards. -/
theorem fill_n_cards (cfg : Config) (fuel : Nat) (t509 : t509_device) (io : IoPorts)
    (hport : t509.id_port ≠ 0) :
    ∀ k, (∀ i, i < k → eeprom_word io.input (io.nread + 80 * i) = cfg.MFG_ID) →
      fill_n cfg fuel k t509 io =
        some (List.replicate k 1, after_cards t509 io.input io.nread k,
          io.advance (80 * k) (cards_events cfg t509 io.input io.nread k)) := by
  intro k
  induction k with
  | zero => intro _; simp [fill_n, after_cards, cards_events, advance_zero_nil]
  | succ k ih =>
    intro h
    have hk := h k (Nat.lt_succ_self k)
    rw [fill_n, ih (fun i hi => h i (Nat.lt_succ_of_lt hi))]
    simp only
    rw [fill_t509_device_known cfg fuel _ _ (by rw [after_cards_id_port]; exact hport),
      fill_t509_device_scan_eq]
    simp only [advance_input, advance_nread, hk, ne_eq, not_true_eq_false, if_false,
      advance_advance, after_cards, cards_events, Nat.add_assoc]
    simp [List.replicate_succ', Nat.mul_add]

/-- After `k` cards, a scan that does not read the manufacturer ID ends the
enumeration. -/
theorem fill_n_cards_end (cfg : Config) (fuel : Nat) (t509 : t509_device) (io : IoPorts)
    (hport : t509.id_port ≠ 0) (k : Nat)
    (h : ∀ i, i < k → eeprom_word io.input (io.nread + 80 * i) = cfg.MFG_ID)
    (hend : eeprom_word io.input (io.nread + 80 * k) ≠ cfg.MFG_ID) :
    fill_n cfg fuel (k + 1) t509 io =
      some (List.replicate k 1 ++ [0], after_cards t509 io.input io.nread k,
        (io.advance (80 * k) (cards_events cfg t509 io.input io.nread k)).advance 16
          (scan_prefix_events cfg (after_cards t509 io.input io.nread k))) := by
  rw [fill_n, fill_n_cards cfg fuel t509 io hport k h]
  simp only
  rw [fill_t509_device_known cfg fuel _ _ (by rw [after_cards_id_port]; exact hport),
    fill_t509_device_scan_eq]
  simp only [advance_input, advance_nread, hend, ne_eq, not_false_eq_true, if_true]

theorem fill_n_succ_left (cfg : Config) (fuel : Nat) :
    ∀ (k : Nat) (t509 : t509_device) (io : IoPorts),
      fill_n cfg fuel (k + 1) t509 io =
        match fill_t509_device cfg fuel t509 io with
        | none => none
        | some (r, t1, io1) =>
          match fill_n cfg fuel k t1 io1 with
          | none => none
          | some (rs, t2, io2) => some (r :: rs, t2, io2) := by
  intro k
  induction k with
  | zero =>
    intro t509 io
    simp only [fill_n]
    cases fill_t509_device cfg fuel t509 io with
    | none => rfl
    | some x => rfl
  | succ k ih =>
    intro t509 io
    rw [fill_n, ih]
    cases fill_t509_device cfg fuel t509 io with
    | none => rfl
    | some x =>
      obtain ⟨r, t1, io1⟩ := x
      simp only
      rw [fill_n]
      cases fill_n cfg fuel k t1 io1 with
      | none => rfl
      | some y =>
        obtain ⟨rs, t2, io2⟩ := y
        simp only
        cases fill_t509_device cfg fuel t2 io2 with
        | none => rfl
        | some z => rfl

/-- The first call of a session whose `j`-th candidate port answers: the
search takes `j + 1` probes and the scan goes on from there. -/
theorem fill_t509_device_search (cfg : Config) (fuel j : Nat) (t509 : t509_device)
    (io : IoPorts) (hid : t509.id_port = 0) (hfuel : j < fuel)
    (hlt : cfg.EP_ID_PORT_START + j * cfg.EP_ID_PORT_INC < cfg.EP_ID_PORT_END)
    (hwrap : cfg.EP_ID_PORT_START + j * cfg.EP_ID_PORT_INC < 65536)
    (hquiet : ∀ i, i < j → io.input (io.nread + i) % 2 = 0)
    (hanswer : io.input (io.nread + j) % 2 = 1) :
    fill_t509_device cfg fuel t509 io =
      some (fill_t509_device_scan cfg
        { t509 with id_port := cfg.EP_ID_PORT_START + j * cfg.EP_ID_PORT_INC }
        (io.advance (j + 1)
          (probes (candidates cfg.EP_ID_PORT_START cfg.EP_ID_PORT_INC (j + 1))))) := by
  have hstart : cfg.EP_ID_PORT_START % 65536 = cfg.EP_ID_PORT_START :=
    Nat.mod_eq_of_lt (by omega)
  have h := find_id_port_loop_found cfg j fuel
    { t509 with id_port := cfg.EP_ID_PORT_START % 65536 } io hfuel
    (by simpa [hstart] using hlt) (by simpa [hstart] using hwrap) hquiet hanswer
  simp only [hstart] at h
  simp [fill_t509_device, hid, find_id_port, hstart, h]

/-- Once the first call has found the ID port, the session runs as one that
knew the port from the start. -/
theorem fill_n_fresh (cfg : Config) (fuel j k : Nat) (t509 : t509_device)
    (io : IoPorts) (hid : t509.id_port = 0) (hfuel : j < fuel)
    (hlt : cfg.EP_ID_PORT_START + j * cfg.EP_ID_PORT_INC < cfg.EP_ID_PORT_END)
    (hwrap : cfg.EP_ID_PORT_START + j * cfg.EP_ID_PORT_INC < 65536)
    (hport : 0 < cfg.EP_ID_PORT_START + j * cfg.EP_ID_PORT_INC)
    (hquiet : ∀ i, i < j → io.input (io.nread + i) % 2 = 0)
    (hanswer : io.input (io.nread + j) % 2 = 1) :
    fill_n cfg fuel (k + 1) t509 io =
      fill_n cfg fuel (k + 1)
        { t509 with id_port := cfg.EP_ID_PORT_START + j * cfg.EP_ID_PORT_INC }
        (io.advance (j + 1)
          (probes (candidates cfg.EP_ID_PORT_START cfg.EP_ID_PORT_INC (j + 1)))) := by
  rw [fill_n_succ_left, fill_n_succ_left,
    fill_t509_device_search cfg fuel j t509 io hid hfuel hlt hwrap hquiet hanswer,
    fill_t509_device_known cfg fuel _ _ (by simp only; omega)]

theorem eeprom_word_many_cards (k : Nat) (hk : k < 256) :
    eeprom_word many_cards_input (1 + 80 * k) = 0x6d50 := by
  have h : eeprom_word many_cards_input (1 + 80 * k) = msb_word 16 (word_bit 0x6d50) := by
    apply msb_word_congr
    intro i hi
    have h0 : ¬ (1 + 80 * k + i = 0) := by omega
    have h1 : 1 + 80 * k + i ≤ 80 * 256 := by omega
    have h2 : (1 + 80 * k + i - 1) % 16 = i := by omega
    simp only [many_cards_input, h0, h1, h2, if_true, if_false]
  rw [h]
  decide

/-! ### One call, taken apart -/

/-- The ID-port search changes nothing of the session but `id_port`, and
leaves the bus input alone. -/
theorem find_id_port_loop_frame (cfg : Config) :
    ∀ (fuel : Nat) (t509 : t509_device) (io : IoPorts) (r : Nat) (t1 : t509_device)
      (io1 : IoPorts), find_id_port_loop cfg fuel t509 io = some (r, t1, io1) →
      t1.magic = t509.magic ∧ t1.ioaddr = t509.ioaddr ∧ t1.current_tag = t509.current_tag ∧
        io1.input = io.input ∧ (r = 0 ∨ r = 1) := by
  intro fuel
  induction fuel with
  | zero => intro t509 io r t1 io1 h; simp [find_id_port_loop] at h
  | succ fuel ih =>
    intro t509 io r t1 io1 h
    simp only [find_id_port_loop] at h
    split_ifs at h with h1 h2
    · simp only [Option.some.injEq, Prod.mk.injEq] at h
      obtain ⟨rfl, rfl, rfl⟩ := h
      simp [inb, outb]
    · have := ih _ _ _ _ _ h
      simpa [inb, outb] using this
    · simp only [Option.some.injEq, Prod.mk.injEq] at h
      obtain ⟨rfl, rfl, rfl⟩ := h
      simp

theorem find_id_port_frame (cfg : Config) (fuel : Nat) (t509 : t509_device) (io : IoPorts)
    (r : Nat) (t1 : t509_device) (io1 : IoPorts)
    (h : find_id_port cfg fuel t509 io = some (r, t1, io1)) :
    t1.magic = t509.magic ∧ t1.ioaddr = t509.ioaddr ∧ t1.current_tag = t509.current_tag ∧
      io1.input = io.input ∧ (r = 0 ∨ r = 1) := by
  have := find_id_port_loop_frame cfg fuel _ io r t1 io1 h
  simpa using this

/-- Every call that returns either stopped in the ID-port search or ran the
scan from a session that differs from the one at entry in `id_port` only. -/
theorem fill_t509_device_cases (cfg : Config) (fuel : Nat) (t509 : t509_device)
    (io : IoPorts) (r : Nat) (t1 : t509_device) (io1 : IoPorts)
    (h : fill_t509_device cfg fuel t509 io = some (r, t1, io1)) :
    (r = 0 ∧ t509.id_port = 0 ∧ find_id_port cfg fuel t509 io = some (0, t1, io1)) ∨
    (∃ (ta : t509_device) (ioa : IoPorts), ta.magic = t509.magic ∧ ta.ioaddr = t509.ioaddr ∧
      ta.current_tag = t509.current_tag ∧ ioa.input = io.input ∧
      fill_t509_device_scan cfg ta ioa = (r, t1, io1)) := by
  unfold fill_t509_device at h
  split_ifs at h with hid
  · cases hf : find_id_port cfg fuel t509 io with
    | none => simp [hf] at h
    | some x =>
      obtain ⟨f, ta, ioa⟩ := x
      simp only [hf] at h
      split_ifs at h with hz
      · simp only [Option.some.injEq, Prod.mk.injEq] at h
        obtain ⟨rfl, rfl, rfl⟩ := h
        exact Or.inl ⟨rfl, hid, by rw [hz]⟩
      · have hfr := find_id_port_frame cfg fuel t509 io f ta ioa hf
        exact Or.inr ⟨ta, ioa, hfr.1, hfr.2.1, hfr.2.2.1, hfr.2.2.2.1, Option.some.inj h⟩
  · exact Or.inr ⟨t509, io, rfl, rfl, rfl, rfl, Option.some.inj h⟩

/-- A call that returns non-zero ran a scan that read the manufacturer ID. -/
theorem fill_t509_device_success (cfg : Config) (fuel : Nat) (t509 : t509_device)
    (io : IoPorts) (r : Nat) (t1 : t509_device) (io1 : IoPorts)
    (h : fill_t509_device cfg fuel t509 io = some (r, t1, io1)) (hr : r ≠ 0) :
    ∃ (ta : t509_device) (ioa : IoPorts), ta.magic = t509.magic ∧ ta.ioaddr = t509.ioaddr ∧
      ta.current_tag = t509.current_tag ∧ ioa.input = io.input ∧
      eeprom_word ioa.input ioa.nread = cfg.MFG_ID ∧ r = 1 ∧
      t1 = tagged ta (eeprom_word ioa.input (ioa.nread + 64)) ∧
      io1 = ioa.advance 80
        (scan_success_events cfg ta (eeprom_word ioa.input (ioa.nread + 64))) := by
  rcases fill_t509_device_cases cfg fuel t509 io r t1 io1 h with ⟨h0, _⟩ | ⟨ta, ioa, h1, h2, h3, h4, hs⟩
  · exact absurd h0 hr
  · rw [fill_t509_device_scan_eq] at hs
    split_ifs at hs with hm
    · simp only [Prod.mk.injEq] at hs
      exact absurd hs.1.symm hr
    · simp only [Prod.mk.injEq] at hs
      obtain ⟨rfl, rfl, rfl⟩ := hs
      exact ⟨ta, ioa, h1, h2, h3, h4, not_not.1 hm, rfl, rfl, rfl⟩

/-- A call that has an arbitration port runs the scan from the point where
the port is known. -/
theorem fill_t509_device_of_has_id_port (cfg : Config) (fuel : Nat) (t509 : t509_device)
    (io : IoPorts) (ta : t509_device) (ioa : IoPorts)
    (hport : has_id_port cfg fuel t509 io ta ioa) :
    fill_t509_device cfg fuel t509 io = some (fill_t509_device_scan cfg ta ioa) ∧
      ta.magic = t509.magic ∧ ta.ioaddr = t509.ioaddr ∧
      ta.current_tag = t509.current_tag ∧ ioa.input = io.input := by
  rcases hport with ⟨hid, rfl, rfl⟩ | ⟨hid, found, hfound, hf⟩
  · exact ⟨fill_t509_device_known cfg fuel ta ioa hid, rfl, rfl, rfl, rfl⟩
  · have hfr := find_id_port_frame cfg fuel t509 io found ta ioa hf
    refine ⟨?_, hfr.1, hfr.2.1, hfr.2.2.1, hfr.2.2.2.1⟩
    simp [fill_t509_device, hid, hf, hfound]

/-! ### The calls on the two-card bus -/

theorem two_cards_first_call :
    fill_t509_device sample_config 1 (zeroed 0) (bus two_cards_input) =
      some (1, first_card, first_bus) := by
  rw [fill_t509_device_search sample_config 1 0 (zeroed 0) (bus two_cards_input) rfl
    (by decide) (by decide) (by decide) (by decide) (by decide), fill_t509_device_scan_eq]
  have h1 : eeprom_word two_cards_input 1 = 0x6d50 := by decide
  have h2 : eeprom_word two_cards_input 65 = 0x05 := by decide
  simp only [advance_input, advance_nread, bus, Nat.zero_add, h1, h2, sample_config, ne_eq,
    not_true_eq_false, if_false, advance_advance, first_bus, Nat.zero_mul, Nat.add_zero]
  rfl

theorem two_cards_second_call (fuel : Nat) :
    fill_t509_device sample_config fuel first_card first_bus =
      some (1, second_card, second_bus) := by
  rw [fill_t509_device_known sample_config fuel first_card first_bus (by decide),
    fill_t509_device_scan_eq]
  have h1 : eeprom_word two_cards_input 81 = 0x6d50 := by decide
  have h2 : eeprom_word two_cards_input 145 = 0x12 := by decide
  simp only [first_bus, advance_input, advance_nread, bus, Nat.zero_add, h1, h2, sample_config,
    ne_eq, not_true_eq_false, if_false, second_bus]
  rfl

theorem two_cards_third_call (fuel : Nat) :
    fill_t509_device sample_config fuel second_card second_bus =
      some (0, second_card, third_bus) := by
  rw [fill_t509_device_known sample_config fuel second_card second_bus (by decide),
    fill_t509_device_scan_eq]
  have h1 : eeprom_word two_cards_input 161 ≠ 0x6d50 := by decide
  simp only [second_bus, first_bus, advance_input, advance_nread, bus, Nat.zero_add, h1,
    sample_config, ne_eq, not_false_eq_true, if_true, third_bus]

/-! ### `current_tag` along a session -/

theorem fill_t509_device_tag_step (cfg : Config) (fuel : Nat) (t509 : t509_device)
    (io : IoPorts) (r : Nat) (t1 : t509_device) (io1 : IoPorts)
    (h : fill_t509_device cfg fuel t509 io = some (r, t1, io1)) :
    (r ≠ 0 → t1.current_tag = (t509.current_tag + 1) % 256) ∧
      (r = 0 → t1.current_tag = t509.current_tag) := by
  constructor
  · intro hr
    obtain ⟨ta, ioa, -, -, htag, -, -, -, rfl, -⟩ :=
      fill_t509_device_success cfg fuel t509 io r t1 io1 h hr
    simp only [tagged, htag]
  · intro hr
    rcases fill_t509_device_cases cfg fuel t509 io r t1 io1 h with
      ⟨-, -, hf⟩ | ⟨ta, ioa, -, -, htag, -, hs⟩
    · exact (find_id_port_frame cfg fuel t509 io 0 t1 io1 hf).2.2.1
    · rw [fill_t509_device_scan_eq] at hs
      split_ifs at hs with hm
      · simp only [Prod.mk.injEq] at hs
        obtain ⟨-, rfl, -⟩ := hs
        exact htag
      · simp only [Prod.mk.injEq] at hs
        exact absurd hs.1.symm (by rw [hr]; decide)

theorem fill_n_add (cfg : Config) (fuel m : Nat) (t509 : t509_device) (io : IoPorts) :
    ∀ d, fill_n cfg fuel (m + d) t509 io =
      match fill_n cfg fuel m t509 io with
      | none => none
      | some (rs1, ta, ioa) =>
        match fill_n cfg fuel d ta ioa with
        | none => none
        | some (rs2, tb, iob) => some (rs1 ++ rs2, tb, iob) := by
  intro d
  induction d with
  | zero =>
    simp only [Nat.add_zero, fill_n]
    cases fill_n cfg fuel m t509 io with
    | none => rfl
    | some x => simp
  | succ d ih =>
    rw [← Nat.add_assoc, fill_n, ih]
    cases fill_n cfg fuel m t509 io with
    | none => rfl
    | some x =>
      obtain ⟨rs1, ta, ioa⟩ := x
      simp only
      rw [fill_n]
      cases fill_n cfg fuel d ta ioa with
      | none => rfl
      | some y =>
        obtain ⟨rs2, tb, iob⟩ := y
        simp only
        cases fill_t509_device cfg fuel tb iob with
        | none => rfl
        | some z => simp

theorem fill_n_current_tag (cfg : Config) (fuel : Nat) :
    ∀ (n : Nat) (t509 : t509_device) (io : IoPorts) (rs : List Nat) (t1 : t509_device)
      (io1 : IoPorts), t509.current_tag < 256 →
      fill_n cfg fuel n t509 io = some (rs, t1, io1) →
      t1.current_tag = (t509.current_tag + successes rs) % 256 := by
  intro n
  induction n with
  | zero =>
    intro t509 io rs t1 io1 htag h
    simp only [fill_n, Option.some.injEq, Prod.mk.injEq] at h
    obtain ⟨rfl, rfl, -⟩ := h
    simp only [successes, List.countP_nil, Nat.add_zero]
    exact (Nat.mod_eq_of_lt htag).symm
  | succ n ih =>
    intro t509 io rs t1 io1 htag h
    rw [fill_n] at h
    cases hn : fill_n cfg fuel n t509 io with
    | none => simp [hn] at h
    | some x =>
      obtain ⟨rs0, ta, ioa⟩ := x
      simp only [hn] at h
      cases hf : fill_t509_device cfg fuel ta ioa with
      | none => simp [hf] at h
      | some y =>
        obtain ⟨r, tb, iob⟩ := y
        simp only [hf, Option.some.injEq, Prod.mk.injEq] at h
        obtain ⟨hrs, ht, -⟩ := h
        rw [← hrs, ← ht]
        have h1 := ih t509 io rs0 ta ioa htag hn
        have h2 := fill_t509_device_tag_step cfg fuel ta ioa r tb iob hf
        by_cases hr : r = 0
        · rw [h2.2 hr, h1]
          simp [successes, List.countP_append, hr]
        · rw [h2.1 hr, h1]
          simp [successes, List.countP_append, hr, Nat.add_assoc]

/-- The run on the bus with 256 cards: every one of the first 256 calls finds
a card. -/
theorem many_cards_run (k : Nat) (hk : k < 256) :
    fill_n sample_config 1 (k + 1) (zeroed 0) (bus many_cards_input) =
      some (List.replicate (k + 1) 1,
        after_cards { zeroed 0 with id_port := 0x110 } many_cards_input 1 (k + 1),
        ((bus many_cards_input).advance 1 (probes [0x110])).advance (80 * (k + 1))
          (cards_events sample_config { zeroed 0 with id_port := 0x110 }
            many_cards_input 1 (k + 1))) := by
  have hc : ∀ i, i < k + 1 →
      eeprom_word ((bus many_cards_input).advance (0 + 1)
        (probes (candidates sample_config.EP_ID_PORT_START
          sample_config.EP_ID_PORT_INC (0 + 1)))).input
        (((bus many_cards_input).advance (0 + 1)
          (probes (candidates sample_config.EP_ID_PORT_START
            sample_config.EP_ID_PORT_INC (0 + 1)))).nread + 80 * i) =
        sample_config.MFG_ID := by
    intro i hi
    have h := eeprom_word_many_cards i (by omega)
    simp only [advance_input, advance_nread, bus, Nat.zero_add]
    exact h
  rw [fill_n_fresh sample_config 1 0 k (zeroed 0) (bus many_cards_input) rfl
      (by decide) (by decide) (by decide) (by decide) (by decide) (by decide),
    fill_n_cards sample_config 1 _ _ (by decide) (k + 1) hc]
  rfl

/-! ## The enumeration contract -/

/-- C1 (amended): in a zeroed session whose `j`-th candidate port is the first
to answer (bit 0 of the value read by probe `i` is `io.input (io.nread + i) % 2`),
if the manufacturer ID is read in each of the first `N` calls and not in call
`N + 1`, then the first `N` calls of `fill_t509_device` return 1, call `k`
leaves `current_tag = k mod 256` (so `k` itself while `k ≤ 255`) and
`ioaddr = 0x200 + ((cfg_k & 0x1f) << 4)` for the configuration word `cfg_k`
read in that call, and call `N + 1` returns 0.  The search takes `j + 1` reads
and every call that finds a card eighty, so call `k + 1` reads its
manufacturer word from read `io.nread + (j + 1) + 80 * k` on and its
configuration word 64 reads later. -/
theorem fill_t509_device_enumerates (cfg : Config) (fuel j N magic : Nat) (io : IoPorts)
    (hfuel : j < fuel)
    (hlt : cfg.EP_ID_PORT_START + j * cfg.EP_ID_PORT_INC < cfg.EP_ID_PORT_END)
    (hwrap : cfg.EP_ID_PORT_START + j * cfg.EP_ID_PORT_INC < 65536)
    (hport : 0 < cfg.EP_ID_PORT_START + j * cfg.EP_ID_PORT_INC)
    (hquiet : ∀ i, i < j → io.input (io.nread + i) % 2 = 0)
    (hanswer : io.input (io.nread + j) % 2 = 1)
    (hcards : ∀ k, k < N →
      eeprom_word io.input (io.nread + (j + 1) + 80 * k) = cfg.MFG_ID)
    (hend : eeprom_word io.input (io.nread + (j + 1) + 80 * N) ≠ cfg.MFG_ID) :
    (∀ k, k < N → ∃ t io1,
      fill_n cfg fuel (k + 1) (zeroed magic) io = some (List.replicate (k + 1) 1, t, io1) ∧
      t.current_tag = (k + 1) % 256 ∧
      (k + 1 ≤ 255 → t.current_tag = k + 1) ∧
      t.ioaddr =
        0x200 + ((eeprom_word io.input (io.nread + (j + 1) + 80 * k + 64) &&& 0x1f) <<< 4)) ∧
    (∃ t io1,
      fill_n cfg fuel (N + 1) (zeroed magic) io = some (List.replicate N 1 ++ [0], t, io1)) := by
  have hta : ({ zeroed magic with
      id_port := cfg.EP_ID_PORT_START + j * cfg.EP_ID_PORT_INC } : t509_device).id_port ≠ 0 :=
    Nat.pos_iff_ne_zero.1 hport
  constructor
  · intro k hk
    have hc : ∀ i, i < k + 1 →
        eeprom_word (io.advance (j + 1)
          (probes (candidates cfg.EP_ID_PORT_START cfg.EP_ID_PORT_INC (j + 1)))).input
          ((io.advance (j + 1)
            (probes (candidates cfg.EP_ID_PORT_START cfg.EP_ID_PORT_INC (j + 1)))).nread
              + 80 * i) = cfg.MFG_ID :=
      fun i hi => hcards i (Nat.lt_of_lt_of_le hi hk)
    rw [fill_n_fresh cfg fuel j k (zeroed magic) io rfl hfuel hlt hwrap hport hquiet hanswer,
      fill_n_cards cfg fuel _ _ hta (k + 1) hc]
    refine ⟨_, _, rfl, ?_, ?_, ?_⟩
    · rw [after_cards_succ_current_tag]; simp [zeroed]
    · intro hle
      rw [after_cards_succ_current_tag]
      simp only [zeroed, Nat.zero_add]
      exact Nat.mod_eq_of_lt (by omega)
    · rw [after_cards_succ_ioaddr]; rfl
  · have hc : ∀ i, i < N →
        eeprom_word (io.advance (j + 1)
          (probes (candidates cfg.EP_ID_PORT_START cfg.EP_ID_PORT_INC (j + 1)))).input
          ((io.advance (j + 1)
            (probes (candidates cfg.EP_ID_PORT_START cfg.EP_ID_PORT_INC (j + 1)))).nread
              + 80 * i) = cfg.MFG_ID :=
      fun i hi => hcards i hi
    rw [fill_n_fresh cfg fuel j N (zeroed magic) io rfl hfuel hlt hwrap hport hquiet hanswer,
      fill_n_cards_end cfg fuel _ _ hta N hc hend]
    exact ⟨_, _, rfl⟩

/-- The enumeration contract at the two-card bus: the answered probe, the two
manufacturer IDs and the failing third read are there, and three calls return
1, 1, 0. -/
theorem fill_t509_device_enumerates_witness :
    two_cards_input 0 % 2 = 1 ∧
    eeprom_word two_cards_input 1 = sample_config.MFG_ID ∧
    eeprom_word two_cards_input 81 = sample_config.MFG_ID ∧
    eeprom_word two_cards_input 161 ≠ sample_config.MFG_ID ∧
    ∃ t io1, fill_n sample_config 1 3 (zeroed 0) (bus two_cards_input) =
      some ([1, 1, 0], t, io1) :=
  ⟨by decide, by decide, by decide, by decide,
    (fill_t509_device_enumerates sample_config 1 0 2 0 (bus two_cards_input)
      (by decide) (by decide) (by decide) (by decide) (by decide) (by decide)
      (by decide) (by decide)).2⟩

/-- C1 as stated fails for `N = 256`: on a bus where 256 calls in a row read
the manufacturer ID and call 257 does not, call 256 returns 1 but leaves
`current_tag = 0`, not 256. -/
theorem fill_t509_device_tag_wraps :
    (∀ k, k < 256 → eeprom_word many_cards_input (1 + 80 * k) = sample_config.MFG_ID) ∧
    eeprom_word many_cards_input (1 + 80 * 256) ≠ sample_config.MFG_ID ∧
    Option.map (fun r => (r.1, r.2.1.current_tag))
      (fill_n sample_config 1 256 (zeroed 0) (bus many_cards_input)) =
        some (List.replicate 256 1, 0) := by
  refine ⟨eeprom_word_many_cards, ?_, ?_⟩
  · have h : eeprom_word many_cards_input (1 + 80 * 256) = msb_word 16 (fun _ => 0) := by
      apply msb_word_congr
      intro i _
      have h0 : ¬ (1 + 80 * 256 + i = 0) := by omega
      have h1 : ¬ (1 + 80 * 256 + i ≤ 80 * 256) := by omega
      simp only [many_cards_input, h0, h1, if_false]
    rw [h]
    decide
  · have hta : ({ zeroed 0 with
        id_port := sample_config.EP_ID_PORT_START + 0 * sample_config.EP_ID_PORT_INC } :
          t509_device).id_port ≠ 0 := by decide
    have hc : ∀ i, i < 256 →
        eeprom_word ((bus many_cards_input).advance (0 + 1)
          (probes (candidates sample_config.EP_ID_PORT_START
            sample_config.EP_ID_PORT_INC (0 + 1)))).input
          (((bus many_cards_input).advance (0 + 1)
            (probes (candidates sample_config.EP_ID_PORT_START
              sample_config.EP_ID_PORT_INC (0 + 1)))).nread + 80 * i) =
          sample_config.MFG_ID := by
      intro i hi
      have h := eeprom_word_many_cards i hi
      simp only [advance_input, advance_nread, bus, Nat.zero_add]
      exact h
    rw [fill_n_fresh sample_config 1 0 255 (zeroed 0) (bus many_cards_input) rfl
        (by decide) (by decide) (by decide) (by decide) (by decide) (by decide),
      fill_n_cards sample_config 1 _ _ hta 256 hc]
    simp only [Option.map_some', after_cards_succ_current_tag]
    rfl

/-- C2: a call of `fill_t509_device` that returns success leaves
`ioaddr = 0x200 + ((raw & 0x1f) << 4)`, where `raw` is the word assembled from
the last sixteen reads of the call, which are the reads that follow the
command for the address-configuration offset; the value is below `2 ^ 16`, so
the store into the 16-bit field loses nothing. -/
theorem fill_t509_device_ioaddr_formula (cfg : Config) (fuel : Nat) (t509 : t509_device)
    (io : IoPorts) (r : Nat) (t1 : t509_device) (io1 : IoPorts)
    (h : fill_t509_device cfg fuel t509 io = some (r, t1, io1)) (hr : r ≠ 0) :
    t1.ioaddr = 0x200 + ((eeprom_word io1.input (io1.nread - 16) &&& 0x1f) <<< 4) ∧
    0x200 + ((eeprom_word io1.input (io1.nread - 16) &&& 0x1f) <<< 4) < 65536 ∧
    ∃ pre tag act, io1.log =
      pre ++ (eeprom_events t1.id_port cfg.EEPROM_ADDR_CFG ++
        [PortEvent.outb tag t1.id_port, PortEvent.outb act t1.id_port]) := by
  obtain ⟨ta, ioa, -, -, -, -, -, -, rfl, rfl⟩ :=
    fill_t509_device_success cfg fuel t509 io r t1 io1 h hr
  have hpos : ioa.nread + 80 - 16 = ioa.nread + 64 := by omega
  refine ⟨?_, ?_, ?_⟩
  · rw [tagged_ioaddr, advance_input, advance_nread, hpos]; rfl
  · exact io_address_lt _
  · refine ⟨ioa.log ++ (scan_prefix_events cfg ta ++ (eeprom_events ta.id_port 0 ++
      (eeprom_events ta.id_port 1 ++ eeprom_events ta.id_port 2))),
      (ta.current_tag + 1) % 256,
      (0xe0 ||| eeprom_word ioa.input (ioa.nread + 64)) % 256, ?_⟩
    simp only [advance_log, scan_success_events, tagged, List.append_assoc]

/-- The address formula at the first call on the two-card bus: the
configuration word `0x05` gives `0x250`. -/
theorem fill_t509_device_ioaddr_formula_witness :
    eeprom_word first_bus.input (first_bus.nread - 16) = 0x05 ∧
    first_card.ioaddr =
      0x200 + ((eeprom_word first_bus.input (first_bus.nread - 16) &&& 0x1f) <<< 4) ∧
    first_card.ioaddr = 0x250 :=
  ⟨by decide,
    (fill_t509_device_ioaddr_formula sample_config 1 (zeroed 0) (bus two_cards_input) 1
      first_card first_bus two_cards_first_call (by decide)).1, rfl⟩

/-- C3: for every offset and every bus, `id_read_eeprom` makes one port write,
of the byte `0x80 + offset` (the low eight bits of that sum, which is the sum
itself for offsets `0 .. 127`), then sixteen port reads and nothing else; the
word it returns is below `2 ^ 16` and its bit `15 - i` is bit 0 of the `i`-th
value read.  The other bits of the values read do not matter, and when the
reads present the bits of a 16-bit word `w`, first the most significant, the
result is `w`. -/
theorem id_read_eeprom_contract (t509 : t509_device) (offset : Int) (io : IoPorts) :
    (id_read_eeprom t509 offset io).2.log =
      io.log ++ (PortEvent.outb (eeprom_command offset) t509.id_port ::
        List.replicate 16 (PortEvent.inw t509.id_port)) ∧
    ((eeprom_command offset : Nat) : Int) = (0x80 + offset) % 256 ∧
    (0 ≤ offset ∧ offset < 128 → ((eeprom_command offset : Nat) : Int) = 0x80 + offset) ∧
    (id_read_eeprom t509 offset io).2.nread = io.nread + 16 ∧
    (id_read_eeprom t509 offset io).2.input = io.input ∧
    (id_read_eeprom t509 offset io).1 < 65536 ∧
    (∀ i, i < 16 → (id_read_eeprom t509 offset io).1.testBit (15 - i) =
      (io.input (io.nread + i)).testBit 0) ∧
    (∀ input2 : Nat → Nat,
      (∀ i, i < 16 → input2 (io.nread + i) % 2 = io.input (io.nread + i) % 2) →
      (id_read_eeprom t509 offset { io with input := input2 }).1 =
        (id_read_eeprom t509 offset io).1) ∧
    (∀ w, w < 65536 → (∀ i, i < 16 → io.input (io.nread + i) % 2 = word_bit w i) →
      (id_read_eeprom t509 offset io).1 = w) := by
  have hcmd : ((eeprom_command offset : Nat) : Int) = (0x80 + offset) % 256 := by
    unfold eeprom_command
    omega
  rw [id_read_eeprom_eq]
  refine ⟨rfl, hcmd, ?_, rfl, rfl, ?_, ?_, ?_, ?_⟩
  · intro h
    rw [hcmd]
    omega
  · have h := msb_word_lt 16 (fun i => io.input (io.nread + i))
    have h2 : (2 : Nat) ^ 16 = 65536 := by norm_num
    rw [h2] at h
    exact h
  · intro i hi
    have h := msb_word_testBit 16 (fun i => io.input (io.nread + i)) i hi
    exact h
  · intro input2 h
    rw [id_read_eeprom_eq]
    exact msb_word_congr 16 (fun i => input2 (io.nread + i))
      (fun i => io.input (io.nread + i)) h
  · intro w hw h
    have h2 : (2 : Nat) ^ 16 = 65536 := by norm_num
    exact msb_word_of_bits 16 (fun i => io.input (io.nread + i)) w (by rw [h2]; exact hw) h

/-- The EEPROM read on a bus that presents `0x6d50`: command byte `0x87`,
sixteen reads, result `0x6d50`. -/
theorem id_read_eeprom_contract_witness :
    (id_read_eeprom first_card 7 (bus (present [0x6d50]))).2.log =
      PortEvent.outb 0x87 0x110 :: List.replicate 16 (PortEvent.inw 0x110) ∧
    (id_read_eeprom first_card 7 (bus (present [0x6d50]))).1 = 0x6d50 :=
  ⟨(id_read_eeprom_contract first_card 7 (bus (present [0x6d50]))).1,
    (id_read_eeprom_contract first_card 7 (bus (present [0x6d50]))).2.2.2.2.2.2.2.2
      0x6d50 (by decide) (by decide)⟩

/-- C4: on every session and every bus `send_id_sequence` reads nothing and
makes exactly 257 writes to `id_port`: `0x00`, `0x00`, then the bytes
`id_byte 0, ..., id_byte 254`, where `id_byte 0 = 0xff` and `id_byte (k + 1)`
is `id_byte k` shifted left by one bit, XOR-ed with `0xcf` exactly when the
shift carries into bit 8, and cut to a byte.  The 16-bit `lrs_state` of the
code never has its high bits cleared; the byte that reaches the port is the
byte of this recurrence all the same. -/
theorem send_id_sequence_contract (t509 : t509_device) (io : IoPorts) :
    (send_id_sequence t509 io).log =
      io.log ++ (PortEvent.outb 0x00 t509.id_port :: PortEvent.outb 0x00 t509.id_port ::
        (List.range 255).map (fun k => PortEvent.outb (id_byte k) t509.id_port)) ∧
    (PortEvent.outb 0x00 t509.id_port :: PortEvent.outb 0x00 t509.id_port ::
        (List.range 255).map (fun k => PortEvent.outb (id_byte k) t509.id_port)).length = 257 ∧
    (send_id_sequence t509 io).nread = io.nread ∧
    (send_id_sequence t509 io).input = io.input ∧
    id_byte 0 = 0xff ∧
    (∀ k, id_byte (k + 1) =
      (if (id_byte k <<< 1) &&& 0x100 ≠ 0 then (id_byte k <<< 1) ^^^ 0xcf
        else id_byte k <<< 1) % 256) ∧
    (∀ k, id_byte k < 256) := by
  rw [send_id_sequence_eq]
  refine ⟨rfl, by simp, rfl, rfl, rfl, fun k => rfl, ?_⟩
  intro k
  cases k with
  | zero => decide
  | succ k => exact Nat.mod_lt _ (by decide)

theorem find_id_port_loop_stuck :
    ∀ (fuel : Nat) (t509 : t509_device) (io : IoPorts),
      t509.id_port = 0x110 → io.input = (fun _ => 0) →
      find_id_port_loop stuck_config fuel t509 io = none := by
  intro fuel
  induction fuel with
  | zero => intro t509 io _ _; rfl
  | succ fuel ih =>
    intro t509 io hp hin
    have h1 : t509.id_port < stuck_config.EP_ID_PORT_END := by rw [hp]; decide
    have h2 : ¬ ((inb t509.id_port (outb 0xff t509.id_port (outb 0x00 t509.id_port io))).1
        &&& 0x01 ≠ 0) := by
      simp [inb, outb, hin]
    simp only [find_id_port_loop, h1, if_true, h2, if_false]
    apply ih
    · simp only [hp]; decide
    · simpa [inb, outb] using hin

/-- C5 as stated fails for ranges that leave the 16-bit port space or have
step zero.  With start `0xfff0`, end `0xffff`, step `0x20` the only candidate
below the end is `0xfff0`; when it does not answer, the search goes on at the
wrapped address `0x0010` and returns success there.  With step zero and a
silent bus the search never returns, whatever the fuel. -/
theorem find_id_port_range_counterexample :
    candidates wrapping_config.EP_ID_PORT_START wrapping_config.EP_ID_PORT_INC 2 =
      [0xfff0, 0x10010] ∧
    Option.map (fun r => (r.1, r.2.1.id_port, r.2.2.log))
      (find_id_port wrapping_config 2 (zeroed 0) (bus (responder [0, 1] []))) =
        some (1, 0x0010, probes [0xfff0, 0x0010]) ∧
    (∀ fuel, find_id_port stuck_config fuel (zeroed 0) silent_bus = none) := by
  refine ⟨by decide, by decide, ?_⟩
  intro fuel
  exact find_id_port_loop_stuck fuel _ _ rfl rfl

/-- C5 (amended): for a range with positive step that stays inside the 16-bit
port space (`start < 2 ^ 16`, `end + step ≤ 2 ^ 16`) the candidates below the
end are `start + i * step` for `i < candidate_count`; `find_id_port` probes
them in that order, each probe being a write of `0x00`, a write of `0xff` and
a read of the candidate; it returns 1 with `id_port` at the first candidate
whose read has bit 0 set, and 0 after probing all candidates when none has.
Probe `i` reads `io.input (io.nread + i)`, whose bit 0 is that value modulo 2;
a search that stops at candidate `j` needs `j + 1` units of fuel. -/
theorem find_id_port_contract (cfg : Config) (fuel : Nat) (t509 : t509_device) (io : IoPorts)
    (hstep : 0 < cfg.EP_ID_PORT_INC) (hstart : cfg.EP_ID_PORT_START < 65536)
    (hend : cfg.EP_ID_PORT_END + cfg.EP_ID_PORT_INC ≤ 65536) :
    (∀ i, cfg.EP_ID_PORT_START + i * cfg.EP_ID_PORT_INC < cfg.EP_ID_PORT_END ↔
      i < candidate_count cfg.EP_ID_PORT_START cfg.EP_ID_PORT_END cfg.EP_ID_PORT_INC) ∧
    (∀ j, j < candidate_count cfg.EP_ID_PORT_START cfg.EP_ID_PORT_END cfg.EP_ID_PORT_INC →
      (∀ i, i < j → io.input (io.nread + i) % 2 = 0) →
      io.input (io.nread + j) % 2 = 1 → j < fuel →
      find_id_port cfg fuel t509 io =
        some (1, { t509 with id_port := cfg.EP_ID_PORT_START + j * cfg.EP_ID_PORT_INC },
          io.advance (j + 1)
            (probes (candidates cfg.EP_ID_PORT_START cfg.EP_ID_PORT_INC (j + 1))))) ∧
    ((∀ i, i < candidate_count cfg.EP_ID_PORT_START cfg.EP_ID_PORT_END cfg.EP_ID_PORT_INC →
        io.input (io.nread + i) % 2 = 0) →
      candidate_count cfg.EP_ID_PORT_START cfg.EP_ID_PORT_END cfg.EP_ID_PORT_INC < fuel →
      find_id_port cfg fuel t509 io =
        some (0,
          { t509 with id_port := cfg.EP_ID_PORT_START +
              candidate_count cfg.EP_ID_PORT_START cfg.EP_ID_PORT_END cfg.EP_ID_PORT_INC *
                cfg.EP_ID_PORT_INC },
          io.advance
            (candidate_count cfg.EP_ID_PORT_START cfg.EP_ID_PORT_END cfg.EP_ID_PORT_INC)
            (probes (candidates cfg.EP_ID_PORT_START cfg.EP_ID_PORT_INC
              (candidate_count cfg.EP_ID_PORT_START cfg.EP_ID_PORT_END
                cfg.EP_ID_PORT_INC))))) := by
  have hmod : cfg.EP_ID_PORT_START % 65536 = cfg.EP_ID_PORT_START := Nat.mod_eq_of_lt hstart
  refine ⟨?_, ?_, ?_⟩
  · intro i
    constructor
    · intro h
      by_contra hge
      have h1 : candidate_count cfg.EP_ID_PORT_START cfg.EP_ID_PORT_END cfg.EP_ID_PORT_INC *
          cfg.EP_ID_PORT_INC ≤ i * cfg.EP_ID_PORT_INC :=
        Nat.mul_le_mul_right _ (Nat.le_of_not_lt hge)
      have h2 := candidate_count_reach cfg.EP_ID_PORT_START cfg.EP_ID_PORT_END
        cfg.EP_ID_PORT_INC hstep
      omega
    · exact candidate_count_below _ _ _ i hstep
  · intro j hj hquiet hanswer hfuel
    have hlt := candidate_count_below _ _ _ j hstep hj
    have h := find_id_port_loop_found cfg j fuel
      { t509 with id_port := cfg.EP_ID_PORT_START % 65536 } io hfuel
      (by simpa [hmod] using hlt) (by simp only [hmod]; omega) hquiet hanswer
    simpa [find_id_port, hmod] using h
  · intro hquiet hfuel
    exact find_id_port_exhausted cfg fuel t509 io hstep hstart hend hquiet hfuel

/-- The search on the two-card bus with the sample range: fifteen candidates,
and the first one, `0x110`, answers. -/
theorem find_id_port_contract_witness :
    candidate_count 0x110 0x200 0x10 = 15 ∧
    find_id_port sample_config 1 (zeroed 0) (bus two_cards_input) =
      some (1, { zeroed 0 with id_port := 0x110 },
        (bus two_cards_input).advance 1 (probes [0x110])) :=
  ⟨by decide,
    (find_id_port_contract sample_config 1 (zeroed 0) (bus two_cards_input)
      (by decide) (by decide) (by decide)).2.1 0 (by decide) (by decide) (by decide)
      (by decide)⟩

/-- C6: a call of `fill_t509_device` that has an arbitration port returns, and
from the point where the port is known its port traffic starts with exactly
one command byte followed by the ID sequence; the command is `0xd0` if and
only if `current_tag` is 0 at entry, and `0xd8` otherwise. -/
theorem fill_t509_device_control_command (cfg : Config) (fuel : Nat) (t509 : t509_device)
    (io : IoPorts) (ta : t509_device) (ioa : IoPorts)
    (hport : has_id_port cfg fuel t509 io ta ioa) :
    ∃ r t1 io1 cmd rest,
      fill_t509_device cfg fuel t509 io = some (r, t1, io1) ∧
      io1.log = ioa.log ++
        (PortEvent.outb cmd ta.id_port :: (id_sequence_events ta.id_port ++ rest)) ∧
      (cmd = 0xd0 ↔ t509.current_tag = 0) ∧
      (cmd = 0xd8 ↔ t509.current_tag ≠ 0) := by
  obtain ⟨hfill, -, -, htag, -⟩ :=
    fill_t509_device_of_has_id_port cfg fuel t509 io ta ioa hport
  have hcmd : (tag_command ta = 0xd0 ↔ t509.current_tag = 0) ∧
      (tag_command ta = 0xd8 ↔ t509.current_tag ≠ 0) := by
    unfold tag_command
    rw [htag]
    split_ifs with h0 <;> simp [h0]
  rw [hfill, fill_t509_device_scan_eq]
  split_ifs with hm
  · exact ⟨_, _, _, tag_command ta, eeprom_events ta.id_port cfg.EEPROM_MFG_ID, rfl,
      by simp [scan_prefix_events], hcmd.1, hcmd.2⟩
  · exact ⟨_, _, _, tag_command ta,
      eeprom_events ta.id_port cfg.EEPROM_MFG_ID ++
        (eeprom_events ta.id_port 0 ++ (eeprom_events ta.id_port 1 ++
          (eeprom_events ta.id_port 2 ++ (eeprom_events ta.id_port cfg.EEPROM_ADDR_CFG ++
            [PortEvent.outb ((ta.current_tag + 1) % 256) ta.id_port,
             PortEvent.outb ((0xe0 ||| eeprom_word ioa.input (ioa.nread + 64)) % 256)
               ta.id_port])))), rfl,
      by simp only [advance_log, scan_success_events, scan_prefix_events, List.cons_append,
        List.append_assoc], hcmd.1, hcmd.2⟩

/-- The command byte at the second call on the two-card bus, entered with
`current_tag = 1`: the traffic of the call starts with `0xd8`. -/
theorem fill_t509_device_control_command_witness :
    first_card.current_tag ≠ 0 ∧
    ∃ r t1 io1 cmd rest,
      fill_t509_device sample_config 0 first_card first_bus = some (r, t1, io1) ∧
      io1.log = first_bus.log ++
        (PortEvent.outb cmd first_card.id_port ::
          (id_sequence_events first_card.id_port ++ rest)) ∧
      (cmd = 0xd0 ↔ first_card.current_tag = 0) ∧
      (cmd = 0xd8 ↔ first_card.current_tag ≠ 0) :=
  ⟨by decide,
    fill_t509_device_control_command sample_config 0 first_card first_bus first_card first_bus
      (Or.inl ⟨by decide, rfl, rfl⟩)⟩

/-- C7 as stated fails for a call that finds its arbitration port itself: on
a zeroed session (`id_port = 0`) and a bus whose reads all return 1, the
first candidate `0x110` answers the probe, the manufacturer word reads as
`0xffff`, and the call returns 0 with `current_tag` and `ioaddr` still 0 but
`id_port` changed from 0 to `0x110`. -/
theorem fill_t509_device_no_device_counterexample :
    (zeroed 0).id_port = 0 ∧
    has_id_port sample_config 1 (zeroed 0) all_ones_bus
      { zeroed 0 with id_port := 0x110 } (all_ones_bus.advance 1 (probes [0x110])) ∧
    eeprom_word all_ones_bus.input 1 = 0xffff ∧
    Option.map (fun r => (r.1, r.2.1.id_port, r.2.1.current_tag, r.2.1.ioaddr,
        r.2.2.nread, r.2.2.log.length))
      (fill_t509_device sample_config 1 (zeroed 0) all_ones_bus) =
        some (0, 0x110, 0, 0, 17, 278) := by
  have hfind : find_id_port sample_config 1 (zeroed 0) all_ones_bus =
      some (1, { zeroed 0 with id_port := 0x110 },
        all_ones_bus.advance 1 (probes [0x110])) := by
    have h := find_id_port_loop_found sample_config 0 1
      { zeroed 0 with id_port := sample_config.EP_ID_PORT_START % 65536 } all_ones_bus
      (by decide) (by decide) (by decide) (by decide) (by decide)
    exact h
  have hword : eeprom_word all_ones_bus.input 1 = 0xffff := by decide
  refine ⟨rfl, Or.inr ⟨rfl, 1, by decide, hfind⟩, hword, ?_⟩
  rw [fill_t509_device_search sample_config 1 0 (zeroed 0) all_ones_bus rfl
    (by decide) (by decide) (by decide) (by decide) (by decide), fill_t509_device_scan_eq]
  have hm : eeprom_word (all_ones_bus.advance (0 + 1)
      (probes (candidates sample_config.EP_ID_PORT_START
        sample_config.EP_ID_PORT_INC (0 + 1)))).input
      (all_ones_bus.advance (0 + 1)
        (probes (candidates sample_config.EP_ID_PORT_START
          sample_config.EP_ID_PORT_INC (0 + 1)))).nread ≠ sample_config.MFG_ID := by
    decide
  rw [if_pos hm]
  simp only [Option.map_some', advance_nread, advance_log]
  simp [all_ones_bus, bus, zeroed, sample_config, scan_prefix_events, id_sequence_events,
    eeprom_events, candidates, probes, probe_events]

/-- C7 (amended): a call of `fill_t509_device` that has an arbitration port,
set at entry or found by the search of the same call, returns 0 if and only
if the word that `id_read_eeprom` reads at the manufacturer-ID offset differs
from `MFG_ID`.  In that case the session is the one the call had when the
port was known: `current_tag` and `ioaddr` are as at entry, `id_port` is as
at entry when it was set at entry and is the port the search found
otherwise; and the port traffic ends with the read command and its sixteen
reads: nothing is written after the command. -/
theorem fill_t509_device_no_device (cfg : Config) (fuel : Nat) (t509 : t509_device)
    (io : IoPorts) (ta : t509_device) (ioa : IoPorts)
    (hport : has_id_port cfg fuel t509 io ta ioa) :
    ∃ r t1 io1,
      fill_t509_device cfg fuel t509 io = some (r, t1, io1) ∧
      (r = 0 ↔
        (id_read_eeprom ta cfg.EEPROM_MFG_ID
          (send_id_sequence ta (outb (tag_command ta) ta.id_port ioa))).1 ≠ cfg.MFG_ID) ∧
      (r = 0 →
        t1 = ta ∧ t1.current_tag = t509.current_tag ∧ t1.ioaddr = t509.ioaddr ∧
        (t509.id_port ≠ 0 → t1.id_port = t509.id_port ∧ t1 = t509) ∧
        io1.log = ioa.log ++
          (PortEvent.outb (tag_command ta) ta.id_port ::
            (id_sequence_events ta.id_port ++
              (PortEvent.outb (eeprom_command cfg.EEPROM_MFG_ID) ta.id_port ::
                List.replicate 16 (PortEvent.inw ta.id_port))))) := by
  obtain ⟨hfill, -, haddr, htag, -⟩ :=
    fill_t509_device_of_has_id_port cfg fuel t509 io ta ioa hport
  have hid : t509.id_port ≠ 0 → ta = t509 := by
    intro h
    rcases hport with ⟨-, rfl, -⟩ | ⟨h0, -⟩
    · rfl
    · exact absurd h0 h
  have hword : (id_read_eeprom ta cfg.EEPROM_MFG_ID
      (send_id_sequence ta (outb (tag_command ta) ta.id_port ioa))).1 =
        eeprom_word ioa.input ioa.nread := by
    simp only [id_read_eeprom_eq, send_id_sequence_eq, outb_eq_advance, advance_input,
      advance_nread, Nat.add_zero]
  rw [hfill, fill_t509_device_scan_eq, hword]
  split_ifs with hm
  · refine ⟨_, _, _, rfl, ⟨fun _ => hm, fun _ => rfl⟩, fun _ => ⟨rfl, htag, haddr, ?_, ?_⟩⟩
    · intro h
      rw [hid h]
      exact ⟨rfl, rfl⟩
    · simp [scan_prefix_events, eeprom_events]
  · exact ⟨_, _, _, rfl, ⟨fun h => absurd h (by decide), fun h => absurd h hm⟩,
      fun h => absurd h (by decide)⟩

/-- The end of the enumeration at the third call on the two-card bus: the
manufacturer ID is not read, the call returns 0 and leaves the session as it
was. -/
theorem fill_t509_device_no_device_witness :
    fill_t509_device sample_config 0 second_card second_bus =
      some (0, second_card, third_bus) ∧
    ∃ r t1 io1,
      fill_t509_device sample_config 0 second_card second_bus = some (r, t1, io1) ∧
      (r = 0 ↔
        (id_read_eeprom second_card sample_config.EEPROM_MFG_ID
          (send_id_sequence second_card
            (outb (tag_command second_card) second_card.id_port second_bus))).1 ≠
          sample_config.MFG_ID) ∧
      (r = 0 →
        t1 = second_card ∧ t1.current_tag = second_card.current_tag ∧
        t1.ioaddr = second_card.ioaddr ∧
        (second_card.id_port ≠ 0 → t1.id_port = second_card.id_port ∧ t1 = second_card) ∧
        io1.log = second_bus.log ++
          (PortEvent.outb (tag_command second_card) second_card.id_port ::
            (id_sequence_events second_card.id_port ++
              (PortEvent.outb (eeprom_command sample_config.EEPROM_MFG_ID)
                  second_card.id_port ::
                List.replicate 16 (PortEvent.inw second_card.id_port))))) :=
  ⟨two_cards_third_call 0,
    fill_t509_device_no_device sample_config 0 second_card second_bus second_card second_bus
      (Or.inl ⟨by decide, rfl, rfl⟩)⟩

/-- C8 as stated fails when the configuration word has a bit set above its low
byte: with the word `0x0100` the call returns 1 and its last port write is
`0xe0`, while `0xe0` OR-ed with the word is `0x1e0`. -/
theorem fill_t509_device_activate_counterexample :
    eeprom_word wide_config_input 64 = 0x0100 ∧
    Option.map (fun r => (r.1, r.2.2.log.getLast?))
      (fill_t509_device sample_config 0 first_card (bus wide_config_input)) =
        some (1, some (PortEvent.outb 0xe0 0x110)) ∧
    0xe0 ||| 0x0100 = 0x1e0 := by
  refine ⟨by decide, ?_, by decide⟩
  rw [fill_t509_device_known sample_config 0 first_card (bus wide_config_input) (by decide),
    fill_t509_device_scan_eq]
  have h1 : eeprom_word wide_config_input 0 = 0x6d50 := by decide
  have h2 : eeprom_word wide_config_input 64 = 0x0100 := by decide
  simp only [bus, Nat.zero_add, h1, h2, sample_config, ne_eq, not_true_eq_false, if_false,
    Option.map_some', advance_log, scan_success_events, List.nil_append]
  simp [first_card]

/-- C8 (amended): in a call of `fill_t509_device` that returns success the last
two port writes are the new `current_tag` (the entry value plus one, modulo
256) and then the low byte of `0xe0 | raw`, where `raw` is the word read at the
address-configuration offset; that byte is `0xe0 | raw` itself when `raw` fits
in a byte.  `current_tag` after the call is the tag byte written. -/
theorem fill_t509_device_tag_and_activate (cfg : Config) (fuel : Nat) (t509 : t509_device)
    (io : IoPorts) (r : Nat) (t1 : t509_device) (io1 : IoPorts)
    (h : fill_t509_device cfg fuel t509 io = some (r, t1, io1)) (hr : r ≠ 0) :
    (∃ pre, io1.log = pre ++
      [PortEvent.outb t1.current_tag t1.id_port,
       PortEvent.outb ((0xe0 ||| eeprom_word io1.input (io1.nread - 16)) % 256) t1.id_port]) ∧
    t1.current_tag = (t509.current_tag + 1) % 256 ∧
    (eeprom_word io1.input (io1.nread - 16) < 256 →
      (0xe0 ||| eeprom_word io1.input (io1.nread - 16)) % 256 =
        0xe0 ||| eeprom_word io1.input (io1.nread - 16)) := by
  obtain ⟨ta, ioa, -, -, htag, -, -, -, rfl, rfl⟩ :=
    fill_t509_device_success cfg fuel t509 io r t1 io1 h hr
  have hpos : ioa.nread + 80 - 16 = ioa.nread + 64 := by omega
  simp only [advance_input, advance_nread, hpos]
  refine ⟨?_, ?_, ?_⟩
  · refine ⟨ioa.log ++ (scan_prefix_events cfg ta ++ (eeprom_events ta.id_port 0 ++
      (eeprom_events ta.id_port 1 ++ (eeprom_events ta.id_port 2 ++
        eeprom_events ta.id_port cfg.EEPROM_ADDR_CFG)))), ?_⟩
    simp only [advance_log, scan_success_events, tagged, List.append_assoc]
  · simp only [tagged, htag]
  · intro hlt
    apply Nat.mod_eq_of_lt
    exact Nat.or_lt_two_pow (n := 8) (by decide) hlt

/-- The tag and activation writes at the first call on the two-card bus: tag
`1`, then `0xe5` for the configuration word `0x05`. -/
theorem fill_t509_device_tag_and_activate_witness :
    (∃ pre, first_bus.log = pre ++
      [PortEvent.outb first_card.current_tag first_card.id_port,
       PortEvent.outb ((0xe0 ||| eeprom_word first_bus.input (first_bus.nread - 16)) % 256)
         first_card.id_port]) ∧
    first_card.current_tag = 1 ∧
    (0xe0 ||| eeprom_word first_bus.input (first_bus.nread - 16)) % 256 = 0xe5 :=
  ⟨(fill_t509_device_tag_and_activate sample_config 1 (zeroed 0) (bus two_cards_input) 1
      first_card first_bus two_cards_first_call (by decide)).1, rfl, by decide⟩

/-- C9 as stated fails once `current_tag` has reached 255: on the bus with 256
cards the session that started zeroed has `current_tag = 255` after 255
calls, and the next call, which finds a card too, leaves `current_tag = 0`. -/
theorem current_tag_wraps_in_session :
    Option.map (fun r => (r.1, r.2.1.current_tag))
      (fill_n sample_config 1 255 (zeroed 0) (bus many_cards_input)) =
        some (List.replicate 255 1, 255) ∧
    Option.map (fun r => (r.1, r.2.1.current_tag))
      (fill_n sample_config 1 256 (zeroed 0) (bus many_cards_input)) =
        some (List.replicate 256 1, 0) := by
  constructor
  · rw [many_cards_run 254 (by decide)]
    simp only [Option.map_some', after_cards_succ_current_tag]
    rfl
  · rw [many_cards_run 255 (by decide)]
    simp only [Option.map_some', after_cards_succ_current_tag]
    rfl

/-- C9 (amended): `current_tag` is a byte.  A call of `fill_t509_device` that
finds a card leaves it at the entry value plus one modulo 256, which is
exactly one more while the entry value is below 255, and a call that finds
none leaves it unchanged.  Hence after any run of calls in one session it is
the start value plus the number of cards found, modulo 256; and as long as
that sum stays within 255, `current_tag` never decreases along the run and
grows strictly from one found card to the next, so the tags handed out are
pairwise distinct. -/
theorem fill_t509_device_current_tag (cfg : Config) (fuel : Nat) (t509 : t509_device)
    (io : IoPorts) (htag : t509.current_tag < 256) :
    (∀ r t1 io1, fill_t509_device cfg fuel t509 io = some (r, t1, io1) →
      (r ≠ 0 → t1.current_tag = (t509.current_tag + 1) % 256 ∧
        (t509.current_tag < 255 → t1.current_tag = t509.current_tag + 1)) ∧
      (r = 0 → t1.current_tag = t509.current_tag)) ∧
    (∀ n rs t1 io1, fill_n cfg fuel n t509 io = some (rs, t1, io1) →
      t1.current_tag = (t509.current_tag + successes rs) % 256 ∧
      (t509.current_tag + successes rs ≤ 255 →
        t1.current_tag = t509.current_tag + successes rs)) ∧
    (∀ m n rs1 ta ioa rs2 tb iob, m ≤ n →
      fill_n cfg fuel m t509 io = some (rs1, ta, ioa) →
      fill_n cfg fuel n t509 io = some (rs2, tb, iob) →
      t509.current_tag + successes rs2 ≤ 255 →
      ta.current_tag ≤ tb.current_tag ∧
        (successes rs1 < successes rs2 → ta.current_tag < tb.current_tag)) := by
  refine ⟨?_, ?_, ?_⟩
  · intro r t1 io1 h
    have hs := fill_t509_device_tag_step cfg fuel t509 io r t1 io1 h
    refine ⟨fun hr => ⟨hs.1 hr, fun hlt => ?_⟩, hs.2⟩
    rw [hs.1 hr]
    exact Nat.mod_eq_of_lt (by omega)
  · intro n rs t1 io1 h
    have ht := fill_n_current_tag cfg fuel n t509 io rs t1 io1 htag h
    refine ⟨ht, fun hle => ?_⟩
    rw [ht]
    exact Nat.mod_eq_of_lt (by omega)
  · intro m n rs1 ta ioa rs2 tb iob hmn hm hn hle
    obtain ⟨d, rfl⟩ : ∃ d, n = m + d := ⟨n - m, by omega⟩
    rw [fill_n_add, hm] at hn
    simp only at hn
    cases hd : fill_n cfg fuel d ta ioa with
    | none => simp [hd] at hn
    | some x =>
      obtain ⟨rs3, tc, ioc⟩ := x
      simp only [hd, Option.some.injEq, Prod.mk.injEq] at hn
      obtain ⟨hrs, htc, -⟩ := hn
      have h1 := fill_n_current_tag cfg fuel m t509 io rs1 ta ioa htag hm
      have hta : ta.current_tag < 256 := by
        rw [h1]
        exact Nat.mod_lt _ (by decide)
      have h2 := fill_n_current_tag cfg fuel d ta ioa rs3 tc ioc hta hd
      have hsum : successes rs2 = successes rs1 + successes rs3 := by
        rw [← hrs]
        simp [successes, List.countP_append]
      rw [← htc]
      rw [Nat.mod_eq_of_lt (by omega)] at h1
      rw [h1, Nat.mod_eq_of_lt (by omega)] at h2
      omega

/-- The tag at the second call on the two-card bus: entered with tag 1, the
call finds a card and leaves tag 2. -/
theorem fill_t509_device_current_tag_witness :
    first_card.current_tag < 256 ∧
    second_card.current_tag = first_card.current_tag + 1 :=
  ⟨by decide,
    (((fill_t509_device_current_tag sample_config 0 first_card first_bus (by decide)).1
      1 second_card second_bus (two_cards_second_call 0)).1 (by decide)).2 (by decide)⟩

/-- C10: with header constants that give a range of positive step inside the
16-bit port space, a call of `fill_t509_device` on a session without an ID
port, on a bus where no candidate answers, returns 0 (given fuel for the
search), leaves `current_tag` and `ioaddr` as they were, and its port traffic
is the probes of the candidates and nothing else: every byte written is the
`0x00` or the `0xff` of a probe of a candidate.  With an empty range the call
touches no port at all. -/
theorem fill_t509_device_no_id_port (cfg : Config) (fuel : Nat) (t509 : t509_device)
    (io : IoPorts) (hid : t509.id_port = 0)
    (hstep : 0 < cfg.EP_ID_PORT_INC) (hstart : cfg.EP_ID_PORT_START < 65536)
    (hend : cfg.EP_ID_PORT_END + cfg.EP_ID_PORT_INC ≤ 65536)
    (hquiet : ∀ i,
      i < candidate_count cfg.EP_ID_PORT_START cfg.EP_ID_PORT_END cfg.EP_ID_PORT_INC →
        io.input (io.nread + i) % 2 = 0)
    (hfuel : candidate_count cfg.EP_ID_PORT_START cfg.EP_ID_PORT_END cfg.EP_ID_PORT_INC <
      fuel) :
    ∃ t1 io1 events,
      fill_t509_device cfg fuel t509 io = some (0, t1, io1) ∧
      t1.current_tag = t509.current_tag ∧ t1.ioaddr = t509.ioaddr ∧
      io1.log = io.log ++ events ∧
      events = probes (candidates cfg.EP_ID_PORT_START cfg.EP_ID_PORT_INC
        (candidate_count cfg.EP_ID_PORT_START cfg.EP_ID_PORT_END cfg.EP_ID_PORT_INC)) ∧
      (∀ v p, PortEvent.outb v p ∈ events → (v = 0x00 ∨ v = 0xff) ∧
        p ∈ candidates cfg.EP_ID_PORT_START cfg.EP_ID_PORT_INC
          (candidate_count cfg.EP_ID_PORT_START cfg.EP_ID_PORT_END cfg.EP_ID_PORT_INC)) ∧
      (cfg.EP_ID_PORT_END ≤ cfg.EP_ID_PORT_START → events = []) := by
  have hf := find_id_port_exhausted cfg fuel t509 io hstep hstart hend hquiet hfuel
  refine ⟨{ t509 with
      id_port := (cfg.EP_ID_PORT_START +
        candidate_count cfg.EP_ID_PORT_START cfg.EP_ID_PORT_END cfg.EP_ID_PORT_INC *
          cfg.EP_ID_PORT_INC) },
    io.advance
      (candidate_count cfg.EP_ID_PORT_START cfg.EP_ID_PORT_END cfg.EP_ID_PORT_INC)
      (probes (candidates cfg.EP_ID_PORT_START cfg.EP_ID_PORT_INC
        (candidate_count cfg.EP_ID_PORT_START cfg.EP_ID_PORT_END cfg.EP_ID_PORT_INC))),
    probes (candidates cfg.EP_ID_PORT_START cfg.EP_ID_PORT_INC
      (candidate_count cfg.EP_ID_PORT_START cfg.EP_ID_PORT_END cfg.EP_ID_PORT_INC)),
    ?_, rfl, rfl, rfl, rfl, probes_writes _, ?_⟩
  · simp [fill_t509_device, hid, hf]
  · intro hle
    rw [candidate_count_empty _ _ _ hstep hle]
    rfl

/-- The call without an ID port on a silent bus with the sample range: fifteen
probes, result 0, tag and address untouched. -/
theorem fill_t509_device_no_id_port_witness :
    candidate_count sample_config.EP_ID_PORT_START sample_config.EP_ID_PORT_END
      sample_config.EP_ID_PORT_INC = 15 ∧
    ∃ t1 io1 events,
      fill_t509_device sample_config 16 (zeroed 0) silent_bus = some (0, t1, io1) ∧
      t1.current_tag = (zeroed 0).current_tag ∧ t1.ioaddr = (zeroed 0).ioaddr ∧
      io1.log = silent_bus.log ++ events ∧
      events = probes (candidates sample_config.EP_ID_PORT_START sample_config.EP_ID_PORT_INC
        (candidate_count sample_config.EP_ID_PORT_START sample_config.EP_ID_PORT_END
          sample_config.EP_ID_PORT_INC)) ∧
      (∀ v p, PortEvent.outb v p ∈ events → (v = 0x00 ∨ v = 0xff) ∧
        p ∈ candidates sample_config.EP_ID_PORT_START sample_config.EP_ID_PORT_INC
          (candidate_count sample_config.EP_ID_PORT_START sample_config.EP_ID_PORT_END
            sample_config.EP_ID_PORT_INC)) ∧
      (sample_config.EP_ID_PORT_END ≤ sample_config.EP_ID_PORT_START → events = []) :=
  ⟨by decide,
    fill_t509_device_no_id_port sample_config 16 (zeroed 0) silent_bus rfl
      (by decide) (by decide) (by decide) (fun _ _ => rfl) (by decide)⟩

/-! ## First use and device binding -/

/-- A call returns 0 or 1 and never touches the marker. -/
theorem fill_t509_device_result (cfg : Config) (fuel : Nat) (t509 : t509_device)
    (io : IoPorts) (r : Nat) (t1 : t509_device) (io1 : IoPorts)
    (h : fill_t509_device cfg fuel t509 io = some (r, t1, io1)) :
    (r = 0 ∨ r = 1) ∧ t1.magic = t509.magic := by
  rcases fill_t509_device_cases cfg fuel t509 io r t1 io1 h with
    ⟨h0, -, hf⟩ | ⟨ta, ioa, hmagic, -, -, -, hs⟩
  · exact ⟨Or.inl h0, (find_id_port_frame cfg fuel t509 io 0 t1 io1 hf).1⟩
  · rw [fill_t509_device_scan_eq] at hs
    split_ifs at hs with hm
    · simp only [Prod.mk.injEq] at hs
      obtain ⟨hr, ht, -⟩ := hs
      exact ⟨Or.inl hr.symm, by rw [← ht]; exact hmagic⟩
    · simp only [Prod.mk.injEq] at hs
      obtain ⟨hr, ht, -⟩ := hs
      exact ⟨Or.inr hr.symm, by rw [← ht]; exact hmagic⟩

theorem find_t509_device_eq (cfg : Config) (fuel : Nat) (t509 : t509_device)
    (driver : t509_driver) (io : IoPorts) :
    find_t509_device cfg fuel t509 driver io =
      fill_t509_device cfg fuel (first_use cfg t509) io := by
  have hfirst : (if t509.magic ≠ cfg.t509_magic then
      ({ ({ magic := 0, id_port := 0, ioaddr := 0, current_tag := 0 } : t509_device) with
        magic := cfg.t509_magic } : t509_device)
      else t509) = first_use cfg t509 := rfl
  simp only [find_t509_device, hfirst]
  cases hf : fill_t509_device cfg fuel (first_use cfg t509) io with
  | none => rfl
  | some x =>
    obtain ⟨r, t1, io1⟩ := x
    rcases (fill_t509_device_result cfg fuel _ io r t1 io1 hf).1 with h | h
    · subst h; rfl
    · subst h; rfl

/-- C11: `find_t509_device` on a session whose marker is not `t509_magic`
gives exactly the result of `fill_t509_device` on the zeroed session,
whatever the session held; on a session whose marker is set it gives exactly
the result of `fill_t509_device` on the session as it is.  A call that returns
leaves the marker set, so the next call runs `fill_t509_device` on the session
the first one left, with `id_port` and `current_tag` as they are. -/
theorem find_t509_device_first_use (cfg : Config) (fuel : Nat) (t509 : t509_device)
    (driver : t509_driver) (io : IoPorts) :
    (t509.magic ≠ cfg.t509_magic →
      find_t509_device cfg fuel t509 driver io =
        fill_t509_device cfg fuel
          { magic := cfg.t509_magic, id_port := 0, ioaddr := 0, current_tag := 0 } io) ∧
    (t509.magic = cfg.t509_magic →
      find_t509_device cfg fuel t509 driver io = fill_t509_device cfg fuel t509 io) ∧
    (∀ r t1 io1, find_t509_device cfg fuel t509 driver io = some (r, t1, io1) →
      t1.magic = cfg.t509_magic ∧
      ∀ fuel2 driver2, find_t509_device cfg fuel2 t1 driver2 io1 =
        fill_t509_device cfg fuel2 t1 io1) := by
  refine ⟨?_, ?_, ?_⟩
  · intro h
    rw [find_t509_device_eq]
    simp only [first_use, h, ne_eq, not_false_eq_true, if_true, zeroed]
  · intro h
    rw [find_t509_device_eq]
    simp only [first_use, h, ne_eq, not_true_eq_false, if_false]
  · intro r t1 io1 h
    rw [find_t509_device_eq] at h
    have hm := (fill_t509_device_result cfg fuel _ io r t1 io1 h).2
    have hfirst : (first_use cfg t509).magic = cfg.t509_magic := by
      unfold first_use
      split_ifs with hne
      · rfl
      · exact not_not.1 hne
    have ht : t1.magic = cfg.t509_magic := by rw [hm, hfirst]
    refine ⟨ht, fun fuel2 driver2 => ?_⟩
    rw [find_t509_device_eq]
    simp only [first_use, ht, ne_eq, not_true_eq_false, if_false]

/-- The first use of the bus state of `blank_dev`, which holds stale values:
the call is the first call on the two-card bus from the zeroed session. -/
theorem find_t509_device_first_use_witness :
    blank_dev.bus.magic ≠ sample_config.t509_magic ∧
    find_t509_device sample_config 1 blank_dev.bus el3_t509_driver (bus two_cards_input) =
      fill_t509_device sample_config 1
        { magic := sample_config.t509_magic, id_port := 0, ioaddr := 0, current_tag := 0 }
        (bus two_cards_input) :=
  ⟨by decide,
    (find_t509_device_first_use sample_config 1 blank_dev.bus el3_t509_driver
      (bus two_cards_input)).1 (by decide)⟩

theorem two_cards_first_use :
    fill_t509_device sample_config 1 (first_use sample_config blank_dev.bus)
      (bus two_cards_input) =
      some (1, { first_card with magic := sample_config.t509_magic }, first_bus) := by
  have hfirst : first_use sample_config blank_dev.bus = zeroed 0x1000 := by decide
  rw [hfirst, fill_t509_device_search sample_config 1 0 (zeroed 0x1000) (bus two_cards_input)
    rfl (by decide) (by decide) (by decide) (by decide) (by decide), fill_t509_device_scan_eq]
  have h1 : eeprom_word two_cards_input 1 = 0x6d50 := by decide
  have h2 : eeprom_word two_cards_input 65 = 0x05 := by decide
  simp only [advance_input, advance_nread, bus, Nat.zero_add, h1, h2, sample_config, ne_eq,
    not_true_eq_false, if_false, advance_advance, first_bus, Nat.zero_mul, Nat.add_zero]
  rfl

/-- C12: `find_t509_boot_device` returns what the enumeration call
(`fill_t509_device` on the session in the bus state of the record, zeroed on
first use) returns, and returns whenever that call does.  On success the
record has the name of the driver descriptor, bus type `ISA_BUS_TYPE`, vendor
id `MFG_ID` and device id `PROD_ID`, and its bus state is the session the
call left, whose `ioaddr` is the address found.  On failure name, bus type,
vendor id and device id are as before. -/
theorem find_t509_boot_device_contract (cfg : Config) (fuel : Nat) (d : dev)
    (driver : t509_driver) (io : IoPorts) :
    (find_t509_boot_device cfg fuel d driver io = none ↔
      fill_t509_device cfg fuel (first_use cfg d.bus) io = none) ∧
    (∀ r t1 io1, fill_t509_device cfg fuel (first_use cfg d.bus) io = some (r, t1, io1) →
      ∃ d1, find_t509_boot_device cfg fuel d driver io = some (r, d1, io1) ∧
        d1.bus = t1 ∧
        (r ≠ 0 →
          d1.name = driver.name ∧ d1.devid.bus_type = cfg.ISA_BUS_TYPE ∧
          d1.devid.vendor_id = cfg.MFG_ID ∧ d1.devid.device_id = cfg.PROD_ID ∧
          d1.bus.ioaddr =
            0x200 + ((eeprom_word io1.input (io1.nread - 16) &&& 0x1f) <<< 4)) ∧
        (r = 0 →
          d1.name = d.name ∧ d1.devid.bus_type = d.devid.bus_type ∧
          d1.devid.vendor_id = d.devid.vendor_id ∧
          d1.devid.device_id = d.devid.device_id)) := by
  constructor
  · simp only [find_t509_boot_device, find_t509_device_eq]
    cases hf : fill_t509_device cfg fuel (first_use cfg d.bus) io with
    | none => simp
    | some x =>
      obtain ⟨r, t1, io1⟩ := x
      simp only
      split_ifs <;> simp
  · intro r t1 io1 hf
    have hr := (fill_t509_device_result cfg fuel _ io r t1 io1 hf).1
    simp only [find_t509_boot_device, find_t509_device_eq, hf]
    rcases hr with h | h
    · subst h
      exact ⟨_, rfl, rfl, fun hne => absurd rfl hne, fun _ => ⟨rfl, rfl, rfl, rfl⟩⟩
    · subst h
      obtain ⟨ta, ioa, -, -, -, -, -, -, ht, hio⟩ :=
        fill_t509_device_success cfg fuel _ io 1 t1 io1 hf (by decide)
      refine ⟨_, rfl, rfl, fun _ => ⟨rfl, rfl, rfl, rfl, ?_⟩, fun h0 => absurd h0 (by decide)⟩
      have hpos : ioa.nread + 80 - 16 = ioa.nread + 64 := by omega
      simp only [ht, hio, tagged_ioaddr, advance_input, advance_nread, hpos]
      rfl

/-- The binding of the first card of the two-card bus to `blank_dev`: the
record gets the driver name, the identity of `sample_config` and the address
`0x250`. -/
theorem find_t509_boot_device_contract_witness :
    find_t509_boot_device sample_config 1 blank_dev el3_t509_driver (bus two_cards_input) =
      some (1,
        { name := "3c509 (ISA)",
          devid := { bus_type := 1, vendor_id := 0x6d50, device_id := 0x9150 },
          bus := { magic := 0x1000, id_port := 0x110, ioaddr := 0x250, current_tag := 1 } },
        first_bus) := by
  obtain ⟨d1, h, hbus, hs, -⟩ :=
    (find_t509_boot_device_contract sample_config 1 blank_dev el3_t509_driver
      (bus two_cards_input)).2 1 _ first_bus two_cards_first_use
  obtain ⟨h1, h2, h3, h4, -⟩ := hs (by decide)
  rw [h]
  obtain ⟨n, ⟨b, v, dv⟩, t⟩ := d1
  simp only at h1 h2 h3 h4 hbus
  subst h1 h2 h3 h4 hbus
  rfl

/-! ## The two-card scenario -/

/-- C13: on a zeroed session whose `j`-th candidate port is the first to
answer, with two cards whose configuration words are `0x05` and `0x12` (the
manufacturer ID is read in calls 1 and 2 and not in call 3): call 1 returns 1
with `ioaddr = 0x250` and `current_tag = 1`, call 2 returns 1 with
`ioaddr = 0x320` and `current_tag = 2`, and call 3 returns 0 and leaves
`current_tag = 2` and `ioaddr = 0x320`. -/
theorem two_cards_scenario (cfg : Config) (fuel j magic : Nat) (io : IoPorts)
    (hfuel : j < fuel)
    (hlt : cfg.EP_ID_PORT_START + j * cfg.EP_ID_PORT_INC < cfg.EP_ID_PORT_END)
    (hwrap : cfg.EP_ID_PORT_START + j * cfg.EP_ID_PORT_INC < 65536)
    (hport : 0 < cfg.EP_ID_PORT_START + j * cfg.EP_ID_PORT_INC)
    (hquiet : ∀ i, i < j → io.input (io.nread + i) % 2 = 0)
    (hanswer : io.input (io.nread + j) % 2 = 1)
    (hmfg1 : eeprom_word io.input (io.nread + (j + 1)) = cfg.MFG_ID)
    (hcfg1 : eeprom_word io.input (io.nread + (j + 1) + 64) = 0x05)
    (hmfg2 : eeprom_word io.input (io.nread + (j + 1) + 80) = cfg.MFG_ID)
    (hcfg2 : eeprom_word io.input (io.nread + (j + 1) + 80 + 64) = 0x12)
    (hmfg3 : eeprom_word io.input (io.nread + (j + 1) + 160) ≠ cfg.MFG_ID) :
    ∃ t1 io1 t2 io2 t3 io3,
      fill_t509_device cfg fuel (zeroed magic) io = some (1, t1, io1) ∧
      t1.ioaddr = 0x250 ∧ t1.current_tag = 1 ∧
      fill_t509_device cfg fuel t1 io1 = some (1, t2, io2) ∧
      t2.ioaddr = 0x320 ∧ t2.current_tag = 2 ∧
      fill_t509_device cfg fuel t2 io2 = some (0, t3, io3) ∧
      t3.ioaddr = 0x320 ∧ t3.current_tag = 2 := by
  have hne : cfg.EP_ID_PORT_START + j * cfg.EP_ID_PORT_INC ≠ 0 := Nat.pos_iff_ne_zero.1 hport
  have hcall1 := fill_t509_device_search cfg fuel j (zeroed magic) io rfl hfuel hlt hwrap
    hquiet hanswer
  rw [fill_t509_device_scan_eq] at hcall1
  simp only [advance_input, advance_nread, hmfg1, hcfg1, ne_eq, not_true_eq_false,
    if_false] at hcall1
  have hcall2 := fill_t509_device_known cfg fuel
    (tagged { zeroed magic with id_port := cfg.EP_ID_PORT_START + j * cfg.EP_ID_PORT_INC } 0x05)
    (((io.advance (j + 1)
      (probes (candidates cfg.EP_ID_PORT_START cfg.EP_ID_PORT_INC (j + 1)))).advance 80
      (scan_success_events cfg
        { zeroed magic with id_port := cfg.EP_ID_PORT_START + j * cfg.EP_ID_PORT_INC } 0x05)))
    hne
  rw [fill_t509_device_scan_eq] at hcall2
  simp only [advance_input, advance_nread, hmfg2, hcfg2, ne_eq, not_true_eq_false,
    if_false] at hcall2
  have hpos : io.nread + (j + 1) + 80 + 80 = io.nread + (j + 1) + 160 := by omega
  have hcall3 := fill_t509_device_known cfg fuel
    (tagged (tagged
      { zeroed magic with id_port := cfg.EP_ID_PORT_START + j * cfg.EP_ID_PORT_INC } 0x05) 0x12)
    ((((io.advance (j + 1)
      (probes (candidates cfg.EP_ID_PORT_START cfg.EP_ID_PORT_INC (j + 1)))).advance 80
      (scan_success_events cfg
        { zeroed magic with id_port := cfg.EP_ID_PORT_START + j * cfg.EP_ID_PORT_INC }
        0x05)).advance 80
      (scan_success_events cfg (tagged
        { zeroed magic with id_port := cfg.EP_ID_PORT_START + j * cfg.EP_ID_PORT_INC } 0x05)
        0x12)))
    hne
  rw [fill_t509_device_scan_eq] at hcall3
  simp only [advance_input, advance_nread, hpos, hmfg3, ne_eq, not_false_eq_true,
    if_true] at hcall3
  exact ⟨_, _, _, _, _, _, hcall1, by rw [tagged_ioaddr]; decide, rfl,
    hcall2, by rw [tagged_ioaddr]; decide, rfl,
    hcall3, by rw [tagged_ioaddr]; decide, rfl⟩

/-- The scenario on the two-card bus with the sample header constants. -/
theorem two_cards_scenario_witness :
    eeprom_word two_cards_input 65 = 0x05 ∧ eeprom_word two_cards_input 145 = 0x12 ∧
    ∃ t1 io1 t2 io2 t3 io3,
      fill_t509_device sample_config 1 (zeroed 0) (bus two_cards_input) = some (1, t1, io1) ∧
      t1.ioaddr = 0x250 ∧ t1.current_tag = 1 ∧
      fill_t509_device sample_config 1 t1 io1 = some (1, t2, io2) ∧
      t2.ioaddr = 0x320 ∧ t2.current_tag = 2 ∧
      fill_t509_device sample_config 1 t2 io2 = some (0, t3, io3) ∧
      t3.ioaddr = 0x320 ∧ t3.current_tag = 2 :=
  ⟨by decide, by decide,
    two_cards_scenario sample_config 1 0 0 (bus two_cards_input) (by decide) (by decide)
      (by decide) (by decide) (by decide) (by decide) (by decide) (by decide) (by decide)
      (by decide) (by decide)⟩

/-! ## The ID port across calls -/

/-- C14 fails on the code: a search that finds no port does not leave
`id_port` unset.  For every range of positive step inside the 16-bit port
space that is not the range from 0 to 0, the failing call returns 0 with
`id_port` at the first address at or past the end of the range, which is not
zero; the next call therefore runs no search (it returns the scan even on no
fuel) and arbitrates on that address.  With the sample constants the call on a
silent bus leaves `id_port = 0x200`, and the traffic of the next call starts
with the command `0xd0` written to port `0x200`. -/
theorem failed_search_leaves_id_port :
    (∀ (cfg : Config) (fuel : Nat) (t509 : t509_device) (io : IoPorts),
      t509.id_port = 0 → 0 < cfg.EP_ID_PORT_INC → cfg.EP_ID_PORT_START < 65536 →
      cfg.EP_ID_PORT_END + cfg.EP_ID_PORT_INC ≤ 65536 →
      0 < cfg.EP_ID_PORT_START ∨ 0 < cfg.EP_ID_PORT_END →
      (∀ i,
        i < candidate_count cfg.EP_ID_PORT_START cfg.EP_ID_PORT_END cfg.EP_ID_PORT_INC →
          io.input (io.nread + i) % 2 = 0) →
      candidate_count cfg.EP_ID_PORT_START cfg.EP_ID_PORT_END cfg.EP_ID_PORT_INC < fuel →
      ∃ t1 io1, fill_t509_device cfg fuel t509 io = some (0, t1, io1) ∧
        t1.id_port ≠ 0 ∧ cfg.EP_ID_PORT_END ≤ t1.id_port ∧
        ∀ io2, fill_t509_device cfg 0 t1 io2 = some (fill_t509_device_scan cfg t1 io2)) ∧
    (∃ t1 io1, fill_t509_device sample_config 16 (zeroed 0) silent_bus = some (0, t1, io1) ∧
      t1.id_port = 0x200 ∧
      ∃ r t2 io2 rest, fill_t509_device sample_config 0 t1 io1 = some (r, t2, io2) ∧
        io2.log = io1.log ++ PortEvent.outb 0xd0 0x200 :: rest) := by
  have hgen : ∀ (cfg : Config) (fuel : Nat) (t509 : t509_device) (io : IoPorts),
      t509.id_port = 0 → 0 < cfg.EP_ID_PORT_INC → cfg.EP_ID_PORT_START < 65536 →
      cfg.EP_ID_PORT_END + cfg.EP_ID_PORT_INC ≤ 65536 →
      0 < cfg.EP_ID_PORT_START ∨ 0 < cfg.EP_ID_PORT_END →
      (∀ i,
        i < candidate_count cfg.EP_ID_PORT_START cfg.EP_ID_PORT_END cfg.EP_ID_PORT_INC →
          io.input (io.nread + i) % 2 = 0) →
      candidate_count cfg.EP_ID_PORT_START cfg.EP_ID_PORT_END cfg.EP_ID_PORT_INC < fuel →
      ∃ t1 io1, fill_t509_device cfg fuel t509 io = some (0, t1, io1) ∧
        t1.id_port ≠ 0 ∧ cfg.EP_ID_PORT_END ≤ t1.id_port ∧
        ∀ io2, fill_t509_device cfg 0 t1 io2 = some (fill_t509_device_scan cfg t1 io2) := by
    intro cfg fuel t509 io hid hstep hstart hend hpos hquiet hfuel
    have hf := find_id_port_exhausted cfg fuel t509 io hstep hstart hend hquiet hfuel
    have hreach := candidate_count_reach cfg.EP_ID_PORT_START cfg.EP_ID_PORT_END
      cfg.EP_ID_PORT_INC hstep
    have hne : cfg.EP_ID_PORT_START +
        candidate_count cfg.EP_ID_PORT_START cfg.EP_ID_PORT_END cfg.EP_ID_PORT_INC *
          cfg.EP_ID_PORT_INC ≠ 0 := by omega
    have hfill : fill_t509_device cfg fuel t509 io =
        some (0,
          { t509 with
            id_port := (cfg.EP_ID_PORT_START +
              candidate_count cfg.EP_ID_PORT_START cfg.EP_ID_PORT_END cfg.EP_ID_PORT_INC *
                cfg.EP_ID_PORT_INC) },
          io.advance
            (candidate_count cfg.EP_ID_PORT_START cfg.EP_ID_PORT_END cfg.EP_ID_PORT_INC)
            (probes (candidates cfg.EP_ID_PORT_START cfg.EP_ID_PORT_INC
              (candidate_count cfg.EP_ID_PORT_START cfg.EP_ID_PORT_END
                cfg.EP_ID_PORT_INC)))) := by
      simp [fill_t509_device, hid, hf]
    exact ⟨_, _, hfill, hne, hreach, fun io2 => fill_t509_device_known cfg 0 _ io2 hne⟩
  refine ⟨hgen, ?_⟩
  have hf := find_id_port_exhausted sample_config 16 (zeroed 0) silent_bus
    (by decide) (by decide) (by decide) (fun _ _ => rfl) (by decide)
  have h1b : fill_t509_device sample_config 16 (zeroed 0) silent_bus =
      some (0, { zeroed 0 with id_port := 0x200 },
        silent_bus.advance 15 (probes (candidates 0x110 0x10 15))) := by
    simp only [fill_t509_device, zeroed, if_true]
    rw [show (zeroed 0) = ({ magic := 0, id_port := 0, ioaddr := 0, current_tag := 0 } :
      t509_device) from rfl] at hf
    rw [hf]
    rfl
  refine ⟨_, _, h1b, rfl, ?_⟩
  rw [fill_t509_device_known sample_config 0 _ _ (by decide), fill_t509_device_scan_eq]
  have hm : eeprom_word (silent_bus.advance 15 (probes (candidates 0x110 0x10 15))).input
      (silent_bus.advance 15 (probes (candidates 0x110 0x10 15))).nread ≠
        sample_config.MFG_ID := by decide
  rw [if_pos hm]
  exact ⟨_, _, _, id_sequence_events 0x200 ++ eeprom_events 0x200 sample_config.EEPROM_MFG_ID,
    rfl, rfl⟩

/-! ### Ports and counts of the scan traffic -/

theorem id_sequence_events_port (p : Nat) :
    ∀ e ∈ id_sequence_events p, e.port = p ∧ e.is_inb = false ∧ e.is_write = true := by
  intro e he
  simp only [id_sequence_events, List.mem_cons, List.mem_map, List.mem_range] at he
  rcases he with rfl | rfl | ⟨k, -, rfl⟩ <;> exact ⟨rfl, rfl, rfl⟩

theorem eeprom_events_port (p : Nat) (offset : Int) :
    ∀ e ∈ eeprom_events p offset, e.port = p ∧ e.is_inb = false := by
  intro e he
  simp only [eeprom_events, List.mem_cons, List.mem_replicate] at he
  rcases he with rfl | ⟨-, rfl⟩ <;> exact ⟨rfl, rfl⟩

theorem scan_prefix_events_port (cfg : Config) (t509 : t509_device) :
    ∀ e ∈ scan_prefix_events cfg t509, e.port = t509.id_port ∧ e.is_inb = false := by
  intro e he
  simp only [scan_prefix_events, List.mem_cons, List.mem_append] at he
  rcases he with rfl | he | he
  · exact ⟨rfl, rfl⟩
  · exact ⟨(id_sequence_events_port _ e he).1, (id_sequence_events_port _ e he).2.1⟩
  · exact eeprom_events_port _ _ e he

theorem scan_success_events_port (cfg : Config) (t509 : t509_device) (iobase : Nat) :
    ∀ e ∈ scan_success_events cfg t509 iobase, e.port = t509.id_port ∧ e.is_inb = false := by
  intro e he
  simp only [scan_success_events, List.mem_cons, List.mem_append, List.mem_singleton,
    List.not_mem_nil, or_false] at he
  rcases he with he | he | he | he | he | rfl | rfl
  · exact scan_prefix_events_port cfg t509 e he
  · exact eeprom_events_port _ _ e he
  · exact eeprom_events_port _ _ e he
  · exact eeprom_events_port _ _ e he
  · exact eeprom_events_port _ _ e he
  · exact ⟨rfl, rfl⟩
  · exact ⟨rfl, rfl⟩

theorem id_sequence_events_counts (p : Nat) :
    (id_sequence_events p).length = 257 ∧
    (id_sequence_events p).countP PortEvent.is_write = 257 ∧
    (id_sequence_events p).countP PortEvent.is_read = 0 := by
  refine ⟨by simp [id_sequence_events], ?_, ?_⟩
  · rw [List.countP_eq_length.2]
    · simp [id_sequence_events]
    · intro e he
      exact (id_sequence_events_port p e he).2.2
  · rw [List.countP_eq_zero]
    intro e he
    have h := (id_sequence_events_port p e he).2.2
    cases e <;> simp_all [PortEvent.is_read, PortEvent.is_write]

theorem eeprom_events_counts (p : Nat) (offset : Int) :
    (eeprom_events p offset).countP PortEvent.is_write = 1 ∧
    (eeprom_events p offset).countP PortEvent.is_read = 16 := by
  simp [eeprom_events, List.countP_cons, List.countP_replicate, PortEvent.is_write,
    PortEvent.is_read]

theorem scan_success_events_counts (cfg : Config) (t509 : t509_device) (iobase : Nat) :
    (scan_success_events cfg t509 iobase).countP PortEvent.is_write = 265 ∧
    (scan_success_events cfg t509 iobase).countP PortEvent.is_read = 80 := by
  have h1 := id_sequence_events_counts t509.id_port
  have h2 := fun o => eeprom_events_counts t509.id_port o
  simp [scan_success_events, scan_prefix_events, List.countP_append, List.countP_cons, h1, h2,
    PortEvent.is_write, PortEvent.is_read]

/-- C15: a call of `fill_t509_device` entered with `id_port` set runs no
search.  It returns on any fuel, the result is the same as on no fuel at all,
the first port access of the call is the write of the tag command (`0xd0` or
`0xd8`), every port access of the call goes to the `id_port` of entry, none
of them is the byte read of a probe, and `id_port` is the same at exit,
whatever the call returns. -/
theorem fill_t509_device_no_search (cfg : Config) (fuel : Nat) (t509 : t509_device)
    (io : IoPorts) (hport : t509.id_port ≠ 0) :
    ∃ r t1 n rest,
      fill_t509_device cfg fuel t509 io =
        some (r, t1, io.advance n (PortEvent.outb (tag_command t509) t509.id_port :: rest)) ∧
      fill_t509_device cfg fuel t509 io = fill_t509_device cfg 0 t509 io ∧
      (tag_command t509 = 0xd0 ∨ tag_command t509 = 0xd8) ∧
      (∀ e ∈ PortEvent.outb (tag_command t509) t509.id_port :: rest,
        e.port = t509.id_port ∧ e.is_inb = false) ∧
      t1.id_port = t509.id_port := by
  have hfuel : fill_t509_device cfg fuel t509 io = fill_t509_device cfg 0 t509 io := by
    rw [fill_t509_device_known cfg fuel t509 io hport,
      fill_t509_device_known cfg 0 t509 io hport]
  have hcmd : tag_command t509 = 0xd0 ∨ tag_command t509 = 0xd8 := by
    unfold tag_command
    split_ifs
    · exact Or.inl rfl
    · exact Or.inr rfl
  have hmain := fill_t509_device_known cfg fuel t509 io hport
  rw [fill_t509_device_scan_eq] at hmain
  by_cases hm : eeprom_word io.input io.nread ≠ cfg.MFG_ID
  · rw [if_pos hm] at hmain
    exact ⟨0, t509, 16, id_sequence_events t509.id_port ++
      eeprom_events t509.id_port cfg.EEPROM_MFG_ID, hmain, hfuel, hcmd,
      scan_prefix_events_port cfg t509, rfl⟩
  · rw [if_neg hm] at hmain
    refine ⟨1, tagged t509 (eeprom_word io.input (io.nread + 64)), 80,
      id_sequence_events t509.id_port ++
      (eeprom_events t509.id_port cfg.EEPROM_MFG_ID ++ (eeprom_events t509.id_port 0 ++
        (eeprom_events t509.id_port 1 ++ (eeprom_events t509.id_port 2 ++
          (eeprom_events t509.id_port cfg.EEPROM_ADDR_CFG ++
            [PortEvent.outb ((t509.current_tag + 1) % 256) t509.id_port,
             PortEvent.outb ((0xe0 ||| eeprom_word io.input (io.nread + 64)) % 256)
               t509.id_port]))))), ?_, hfuel, hcmd, ?_, rfl⟩
    · rw [hmain]
      simp only [scan_success_events, scan_prefix_events, List.cons_append, List.append_assoc]
    · have h := scan_success_events_port cfg t509 (eeprom_word io.input (io.nread + 64))
      simpa only [scan_success_events, scan_prefix_events, List.cons_append,
        List.append_assoc] using h

/-- The second call on the two-card bus, entered with `id_port = 0x110`: no
search, the traffic starts with the tag command and stays on port `0x110`. -/
theorem fill_t509_device_no_search_witness :
    first_card.id_port = 0x110 ∧
    ∃ r t1 n rest,
      fill_t509_device sample_config 5 first_card first_bus =
        some (r, t1,
          first_bus.advance n (PortEvent.outb (tag_command first_card) first_card.id_port ::
            rest)) ∧
      fill_t509_device sample_config 5 first_card first_bus =
        fill_t509_device sample_config 0 first_card first_bus ∧
      (tag_command first_card = 0xd0 ∨ tag_command first_card = 0xd8) ∧
      (∀ e ∈ PortEvent.outb (tag_command first_card) first_card.id_port :: rest,
        e.port = first_card.id_port ∧ e.is_inb = false) ∧
      t1.id_port = first_card.id_port :=
  ⟨rfl, fill_t509_device_no_search sample_config 5 first_card first_bus (by decide)⟩

/-! ## The address words are dropped -/

theorem find_id_port_loop_nread (cfg : Config) :
    ∀ (fuel : Nat) (t509 : t509_device) (io : IoPorts) (r : Nat) (t1 : t509_device)
      (io1 : IoPorts), find_id_port_loop cfg fuel t509 io = some (r, t1, io1) →
      io.nread ≤ io1.nread := by
  intro fuel
  induction fuel with
  | zero => intro t509 io r t1 io1 h; simp [find_id_port_loop] at h
  | succ fuel ih =>
    intro t509 io r t1 io1 h
    simp only [find_id_port_loop] at h
    split_ifs at h with h1 h2
    · simp only [Option.some.injEq, Prod.mk.injEq] at h
      obtain ⟨-, -, rfl⟩ := h
      simp [inb, outb]
    · have := ih _ _ _ _ _ h
      simp only [inb, outb] at this
      omega
    · simp only [Option.some.injEq, Prod.mk.injEq] at h
      obtain ⟨-, -, rfl⟩ := h
      exact Nat.le_refl _

/-- The search depends on the reads it makes and on nothing else of the input. -/
theorem find_id_port_loop_input (cfg : Config) (input2 : Nat → Nat) :
    ∀ (fuel : Nat) (t509 : t509_device) (io : IoPorts) (r : Nat) (t1 : t509_device)
      (io1 : IoPorts), find_id_port_loop cfg fuel t509 io = some (r, t1, io1) →
      (∀ n, io.nread ≤ n → n < io1.nread → input2 n = io.input n) →
      find_id_port_loop cfg fuel t509 { io with input := input2 } =
        some (r, t1, { io1 with input := input2 }) := by
  intro fuel
  induction fuel with
  | zero => intro t509 io r t1 io1 h; simp [find_id_port_loop] at h
  | succ fuel ih =>
    intro t509 io r t1 io1 h hagree
    simp only [find_id_port_loop] at h ⊢
    split_ifs at h with h1 h2
    · simp only [Option.some.injEq, Prod.mk.injEq] at h
      obtain ⟨rfl, rfl, rfl⟩ := h
      have hin : input2 io.nread = io.input io.nread :=
        hagree io.nread (Nat.le_refl _) (by simp [inb, outb])
      have h2b : (inb t509.id_port (outb 0xff t509.id_port
          (outb 0x00 t509.id_port { io with input := input2 }))).1 &&& 0x01 ≠ 0 := by
        simpa [inb, outb, hin] using h2
      rw [if_pos h1, if_pos h2b]
      rfl
    · have hle := find_id_port_loop_nread cfg fuel _ _ r t1 io1 h
      simp only [inb, outb] at hle
      have hin : input2 io.nread = io.input io.nread :=
        hagree io.nread (Nat.le_refl _) (by omega)
      have h2b : ¬ ((inb t509.id_port (outb 0xff t509.id_port
          (outb 0x00 t509.id_port { io with input := input2 }))).1 &&& 0x01 ≠ 0) := by
        simpa [inb, outb, hin] using h2
      rw [if_pos h1, if_neg h2b]
      have := ih _ _ r t1 io1 h (fun n hn1 hn2 => hagree n (by
        simp only [inb, outb] at hn1
        omega) hn2)
      exact this
    · simp only [Option.some.injEq, Prod.mk.injEq] at h
      obtain ⟨rfl, rfl, rfl⟩ := h
      rw [if_neg h1]

/-- The scan depends on the reads of the manufacturer ID and of the address
configuration and on nothing else of the input. -/
theorem fill_t509_device_scan_input (cfg : Config) (ta : t509_device) (ioa : IoPorts)
    (input2 : Nat → Nat)
    (h16 : ∀ i, i < 16 → input2 (ioa.nread + i) = ioa.input (ioa.nread + i))
    (h80 : eeprom_word ioa.input ioa.nread = cfg.MFG_ID →
      ∀ i, i < 16 → input2 (ioa.nread + 64 + i) = ioa.input (ioa.nread + 64 + i)) :
    fill_t509_device_scan cfg ta { ioa with input := input2 } =
      ((fill_t509_device_scan cfg ta ioa).1, (fill_t509_device_scan cfg ta ioa).2.1,
        { (fill_t509_device_scan cfg ta ioa).2.2 with input := input2 }) := by
  have hv : eeprom_word input2 ioa.nread = eeprom_word ioa.input ioa.nread :=
    msb_word_congr 16 (fun i => input2 (ioa.nread + i)) (fun i => ioa.input (ioa.nread + i))
      (fun i hi => by simp only; rw [h16 i hi])
  rw [fill_t509_device_scan_eq, fill_t509_device_scan_eq]
  simp only [hv]
  split_ifs with hm
  · rfl
  · have hc : eeprom_word input2 (ioa.nread + 64) = eeprom_word ioa.input (ioa.nread + 64) :=
      msb_word_congr 16 (fun i => input2 (ioa.nread + 64 + i))
        (fun i => ioa.input (ioa.nread + 64 + i))
        (fun i hi => by simp only; rw [h80 (not_not.1 hm) i hi])
    simp only [hc]
    rfl

theorem fill_t509_device_scan_reads (cfg : Config) (ta : t509_device) (ioa : IoPorts)
    (r : Nat) (t1 : t509_device) (io1 : IoPorts)
    (hs : fill_t509_device_scan cfg ta ioa = (r, t1, io1)) :
    (r = 0 ∧ io1.nread = ioa.nread + 16 ∧ eeprom_word ioa.input ioa.nread ≠ cfg.MFG_ID) ∨
    (r = 1 ∧ io1.nread = ioa.nread + 80 ∧ eeprom_word ioa.input ioa.nread = cfg.MFG_ID) := by
  rw [fill_t509_device_scan_eq] at hs
  split_ifs at hs with hm
  · simp only [Prod.mk.injEq] at hs
    obtain ⟨hr, -, hio⟩ := hs
    exact Or.inl ⟨hr.symm, by rw [← hio]; rfl, hm⟩
  · simp only [Prod.mk.injEq] at hs
    obtain ⟨hr, -, hio⟩ := hs
    exact Or.inr ⟨hr.symm, by rw [← hio]; rfl, not_not.1 hm⟩

theorem fill_t509_device_scan_agree (cfg : Config) (ta : t509_device) (ioa : IoPorts)
    (input2 : Nat → Nat) (r : Nat) (t1 : t509_device) (io1 : IoPorts)
    (hs : fill_t509_device_scan cfg ta ioa = (r, t1, io1))
    (hagree : ∀ n, ioa.nread ≤ n → n < io1.nread →
      ¬ (r ≠ 0 ∧ io1.nread - 64 ≤ n ∧ n < io1.nread - 16) → input2 n = ioa.input n) :
    fill_t509_device_scan cfg ta { ioa with input := input2 } =
      (r, t1, { io1 with input := input2 }) := by
  have hreads := fill_t509_device_scan_reads cfg ta ioa r t1 io1 hs
  rw [fill_t509_device_scan_input cfg ta ioa input2 ?_ ?_, hs]
  · intro i hi
    apply hagree
    · omega
    · rcases hreads with ⟨-, h, -⟩ | ⟨-, h, -⟩ <;> omega
    · rcases hreads with ⟨h0, h, -⟩ | ⟨-, h, -⟩
      · intro hc; exact hc.1 h0
      · intro hc; omega
  · intro hm i hi
    rcases hreads with ⟨-, -, hne⟩ | ⟨-, h, -⟩
    · exact absurd hm hne
    · apply hagree
      · omega
      · omega
      · intro hc; omega

/-- C16: the values of the three address words do not matter.  If a call of
`fill_t509_device` returns `r`, leaves the session `t1` and the bus `io1`,
then on every input that agrees with the first on the reads of the call other
than the 48 reads of the contention-select step (in a call that finds a card,
the reads from `io1.nread - 64` up to `io1.nread - 16`; a call that finds
none has no such step) the call returns the same value, leaves the same
session and makes the same port traffic, reads and writes alike. -/
theorem fill_t509_device_drops_address_words (cfg : Config) (fuel : Nat)
    (t509 : t509_device) (io : IoPorts) (input2 : Nat → Nat) (r : Nat) (t1 : t509_device)
    (io1 : IoPorts) (h : fill_t509_device cfg fuel t509 io = some (r, t1, io1))
    (hagree : ∀ n, io.nread ≤ n → n < io1.nread →
      ¬ (r ≠ 0 ∧ io1.nread - 64 ≤ n ∧ n < io1.nread - 16) → input2 n = io.input n) :
    fill_t509_device cfg fuel t509 { io with input := input2 } =
      some (r, t1, { input := input2, nread := io1.nread, log := io1.log }) := by
  by_cases hid : t509.id_port = 0
  · simp only [fill_t509_device, hid, if_true] at h ⊢
    cases hf : find_id_port cfg fuel t509 io with
    | none => simp [hf] at h
    | some x =>
      obtain ⟨f, ta, ioa⟩ := x
      simp only [hf] at h
      have hle : io.nread ≤ ioa.nread := find_id_port_loop_nread cfg fuel _ io f ta ioa hf
      by_cases hz : f = 0
      · simp only [hz, if_true, Option.some.injEq, Prod.mk.injEq] at h
        obtain ⟨hr, ht, hio⟩ := h
        subst hr ht hio
        have hf2 := find_id_port_loop_input cfg input2 fuel _ io f ta ioa hf
          (fun n hn1 hn2 => hagree n hn1 hn2 (fun hc => hc.1 rfl))
        simp only [find_id_port] at hf2 ⊢
        rw [hf2]
        simp [hz]
      · rw [if_neg hz] at h
        have hs := Option.some.inj h
        have hreads := fill_t509_device_scan_reads cfg ta ioa r t1 io1 hs
        have hf2 := find_id_port_loop_input cfg input2 fuel _ io f ta ioa hf
          (fun n hn1 hn2 => hagree n hn1
            (by rcases hreads with ⟨-, h, -⟩ | ⟨-, h, -⟩ <;> omega)
            (by
              rcases hreads with ⟨h0, h, -⟩ | ⟨-, h, -⟩
              · intro hc; exact hc.1 h0
              · intro hc; omega))
        simp only [find_id_port] at hf2 ⊢
        rw [hf2]
        simp only [hz, if_false]
        have hin := (find_id_port_frame cfg fuel t509 io f ta ioa hf).2.2.2.1
        rw [fill_t509_device_scan_agree cfg ta ioa input2 r t1 io1 hs
          (fun n hn1 hn2 hn3 => by rw [hin]; exact hagree n (by omega) hn2 hn3)]
  · rw [fill_t509_device_known cfg fuel t509 io hid] at h
    rw [fill_t509_device_known cfg fuel t509 _ hid,
      fill_t509_device_scan_agree cfg t509 io input2 r t1 io1 (Option.some.inj h) hagree]

/-- The first call on the two-card bus with other address words for the
first card: same result, same session, same traffic. -/
theorem fill_t509_device_drops_address_words_witness :
    other_address_input 20 ≠ two_cards_input 20 ∧
    fill_t509_device sample_config 1 (zeroed 0) (bus other_address_input) =
      some (1, first_card,
        { input := other_address_input, nread := first_bus.nread, log := first_bus.log }) :=
  ⟨by decide,
    fill_t509_device_drops_address_words sample_config 1 (zeroed 0) (bus two_cards_input)
      other_address_input 1 first_card first_bus two_cards_first_call (by decide)⟩

/-! ## The port traffic of a successful call -/

/-- C17: a call of `fill_t509_device` entered with `id_port` set that finds a
card makes exactly these port accesses, in this order, all on `id_port`: the
tag command; the 257 writes of the ID sequence; five EEPROM read commands,
for the manufacturer-ID offset, for 0, 1 and 2, and for the address
configuration offset, each the byte `0x80 + offset` followed by sixteen word
reads; the write of the new tag and the activation write.  That is 265 writes
and 80 reads. -/
theorem fill_t509_device_traffic (cfg : Config) (fuel : Nat) (t509 : t509_device)
    (io : IoPorts) (r : Nat) (t1 : t509_device) (io1 : IoPorts)
    (hport : t509.id_port ≠ 0)
    (h : fill_t509_device cfg fuel t509 io = some (r, t1, io1)) (hr : r ≠ 0) :
    ∃ events activate,
      io1.log = io.log ++ events ∧
      events =
        PortEvent.outb (tag_command t509) t509.id_port ::
          (id_sequence_events t509.id_port ++
            (eeprom_events t509.id_port cfg.EEPROM_MFG_ID ++
              (eeprom_events t509.id_port 0 ++
                (eeprom_events t509.id_port 1 ++
                  (eeprom_events t509.id_port 2 ++
                    (eeprom_events t509.id_port cfg.EEPROM_ADDR_CFG ++
                      [PortEvent.outb t1.current_tag t509.id_port,
                       PortEvent.outb activate t509.id_port])))))) ∧
      (id_sequence_events t509.id_port).length = 257 ∧
      (∀ offset, eeprom_events t509.id_port offset =
        PortEvent.outb (eeprom_command offset) t509.id_port ::
          List.replicate 16 (PortEvent.inw t509.id_port)) ∧
      eeprom_command 0 = 0x80 ∧ eeprom_command 1 = 0x81 ∧ eeprom_command 2 = 0x82 ∧
      (∀ offset : Int, 0 ≤ offset → offset < 128 →
        ((eeprom_command offset : Nat) : Int) = 0x80 + offset) ∧
      events.countP PortEvent.is_write = 265 ∧
      events.countP PortEvent.is_read = 80 ∧
      events.length = 345 ∧
      io1.nread = io.nread + 80 := by
  rw [fill_t509_device_known cfg fuel t509 io hport, fill_t509_device_scan_eq] at h
  split_ifs at h with hm
  · simp only [Option.some.injEq, Prod.mk.injEq] at h
    exact absurd h.1.symm hr
  · simp only [Option.some.injEq, Prod.mk.injEq] at h
    obtain ⟨-, ht, hio⟩ := h
    have hcounts := scan_success_events_counts cfg t509 (eeprom_word io.input (io.nread + 64))
    have hshape : scan_success_events cfg t509 (eeprom_word io.input (io.nread + 64)) =
        PortEvent.outb (tag_command t509) t509.id_port ::
          (id_sequence_events t509.id_port ++
            (eeprom_events t509.id_port cfg.EEPROM_MFG_ID ++
              (eeprom_events t509.id_port 0 ++
                (eeprom_events t509.id_port 1 ++
                  (eeprom_events t509.id_port 2 ++
                    (eeprom_events t509.id_port cfg.EEPROM_ADDR_CFG ++
                      [PortEvent.outb t1.current_tag t509.id_port,
                       PortEvent.outb
                         ((0xe0 ||| eeprom_word io.input (io.nread + 64)) % 256)
                         t509.id_port])))))) := by
      rw [← ht]
      simp only [scan_success_events, scan_prefix_events, tagged, List.cons_append,
        List.append_assoc]
    have hlen : (scan_success_events cfg t509
        (eeprom_word io.input (io.nread + 64))).length = 345 := by
      simp [scan_success_events, scan_prefix_events, id_sequence_events, eeprom_events]
    refine ⟨scan_success_events cfg t509 (eeprom_word io.input (io.nread + 64)),
      (0xe0 ||| eeprom_word io.input (io.nread + 64)) % 256, ?_, hshape,
      (id_sequence_events_counts t509.id_port).1, fun _ => rfl, by decide, by decide,
      by decide, ?_, hcounts.1, hcounts.2, hlen, ?_⟩
    · rw [← hio]; rfl
    · intro offset h0 h1
      unfold eeprom_command
      omega
    · rw [← hio]; rfl

/-- The traffic of the second call on the two-card bus: 265 writes and 80
reads, ending with the tag `2` and the activation byte `0xf2`. -/
theorem fill_t509_device_traffic_witness :
    first_card.id_port ≠ 0 ∧
    ∃ events activate,
      second_bus.log = first_bus.log ++ events ∧
      events =
        PortEvent.outb (tag_command first_card) first_card.id_port ::
          (id_sequence_events first_card.id_port ++
            (eeprom_events first_card.id_port sample_config.EEPROM_MFG_ID ++
              (eeprom_events first_card.id_port 0 ++
                (eeprom_events first_card.id_port 1 ++
                  (eeprom_events first_card.id_port 2 ++
                    (eeprom_events first_card.id_port sample_config.EEPROM_ADDR_CFG ++
                      [PortEvent.outb second_card.current_tag first_card.id_port,
                       PortEvent.outb activate first_card.id_port])))))) ∧
      events.countP PortEvent.is_write = 265 ∧
      events.countP PortEvent.is_read = 80 := by
  obtain ⟨events, activate, h1, h2, -, -, -, -, -, -, h3, h4, -, -⟩ :=
    fill_t509_device_traffic sample_config 0 first_card first_bus 1 second_card second_bus
      (by decide) (two_cards_second_call 0) (by decide)
  exact ⟨by decide, events, activate, h1, h2, h3, h4⟩

/-! ## The period of the ID sequence -/

theorem id_byte_nodup : ((List.range 255).map id_byte).Nodup := by decide!

theorem id_byte_nonzero : ∀ k, k < 255 → id_byte k ≠ 0 := by decide!

theorem id_byte_period : lrs_next (id_byte 254) = 0xff := by decide!

/-- C18: the 255 bytes that `send_id_sequence` writes after the two zero bytes
are `id_byte 0, ..., id_byte 254`; they are all non-zero and pairwise
distinct, and one more step of the recurrence from the last one gives `0xff`
again. -/
theorem id_sequence_full_period (t509 : t509_device) (io : IoPorts) :
    (send_id_sequence t509 io).log =
      io.log ++ (PortEvent.outb 0x00 t509.id_port :: PortEvent.outb 0x00 t509.id_port ::
        (List.range 255).map (fun k => PortEvent.outb (id_byte k) t509.id_port)) ∧
    (∀ k, k < 255 → id_byte k ≠ 0) ∧
    (∀ i j, i < 255 → j < 255 → i ≠ j → id_byte i ≠ id_byte j) ∧
    lrs_next (id_byte 254) = 0xff ∧ id_byte 255 = id_byte 0 := by
  rw [send_id_sequence_eq]
  refine ⟨rfl, id_byte_nonzero, ?_, id_byte_period, id_byte_period⟩
  intro i j hi hj hne heq
  exact hne (List.inj_on_of_nodup_map id_byte_nodup (List.mem_range.2 hi)
    (List.mem_range.2 hj) heq)

/-! ## The activation byte and the address -/

theorem or_mod_256 (a b : Nat) : (a ||| b) % 256 = (a % 256) ||| (b % 256) := by
  have h := fun x => Nat.and_pow_two_sub_one_eq_mod x 8
  norm_num at h
  rw [← h, ← h, ← h, Nat.and_distrib_right]

theorem and_31_mod_256 (w : Nat) : w &&& 0x1f = (w % 256) &&& 0x1f := by
  have h := Nat.and_pow_two_sub_one_eq_mod w 8
  have h2 : (0x1f : Nat) = 255 &&& 0x1f := by decide
  norm_num at h
  rw [← h, Nat.and_assoc, ← h2]

theorem activation_byte_low : ∀ b, b < 256 →
    0xe0 ≤ (0xe0 ||| b) ∧ (0xe0 ||| b) < 256 ∧ (0xe0 ||| b) &&& 0x1f = b &&& 0x1f := by
  decide!

theorem activation_byte_facts (w : Nat) :
    0xe0 ≤ (0xe0 ||| w) % 256 ∧ (0xe0 ||| w) % 256 < 256 ∧
      ((0xe0 ||| w) % 256) &&& 0x1f = w &&& 0x1f := by
  have h := activation_byte_low (w % 256) (Nat.mod_lt _ (by decide))
  have hmod : (0xe0 ||| w) % 256 = 0xe0 ||| (w % 256) := by
    rw [or_mod_256]
  rw [hmod, and_31_mod_256 w]
  exact h

theorem io_address_range (iobase : Nat) :
    io_address iobase % 16 = 0 ∧ 0x200 ≤ io_address iobase ∧ io_address iobase ≤ 0x3f0 := by
  have h : iobase &&& 0x1f ≤ 0x1f := Nat.and_le_right
  unfold io_address
  rw [Nat.shiftLeft_eq]
  omega

/-- C19: in a call of `fill_t509_device` that finds a card, whatever 16-bit
configuration word `raw` was read, the last port write is the activation byte
`a`, the low byte of `0xe0 | raw`; it satisfies `a ≥ 0xe0`, and the address
the session records is `0x200 + ((a & 0x1f) << 4)`, the one encoded in that
byte: a multiple of 16 between `0x200` and `0x3f0`. -/
theorem fill_t509_device_activation_byte (cfg : Config) (fuel : Nat) (t509 : t509_device)
    (io : IoPorts) (r : Nat) (t1 : t509_device) (io1 : IoPorts)
    (h : fill_t509_device cfg fuel t509 io = some (r, t1, io1)) (hr : r ≠ 0) :
    ∃ pre a,
      io1.log = pre ++ [PortEvent.outb a t1.id_port] ∧
      a = (0xe0 ||| eeprom_word io1.input (io1.nread - 16)) % 256 ∧
      eeprom_word io1.input (io1.nread - 16) < 65536 ∧
      0xe0 ≤ a ∧ a < 256 ∧
      t1.ioaddr = 0x200 + ((a &&& 0x1f) <<< 4) ∧
      t1.ioaddr % 16 = 0 ∧ 0x200 ≤ t1.ioaddr ∧ t1.ioaddr ≤ 0x3f0 := by
  obtain ⟨ta, ioa, -, -, -, -, -, -, rfl, rfl⟩ :=
    fill_t509_device_success cfg fuel t509 io r t1 io1 h hr
  have hpos : ioa.nread + 80 - 16 = ioa.nread + 64 := by omega
  have hfacts := activation_byte_facts (eeprom_word ioa.input (ioa.nread + 64))
  have hrange := io_address_range (eeprom_word ioa.input (ioa.nread + 64))
  have hlt := msb_word_lt 16 (fun i => ioa.input (ioa.nread + 64 + i))
  have h2 : (2 : Nat) ^ 16 = 65536 := by norm_num
  rw [h2] at hlt
  simp only [advance_input, advance_nread, hpos, tagged_ioaddr]
  refine ⟨ioa.log ++ (scan_prefix_events cfg ta ++ (eeprom_events ta.id_port 0 ++
      (eeprom_events ta.id_port 1 ++ (eeprom_events ta.id_port 2 ++
        (eeprom_events ta.id_port cfg.EEPROM_ADDR_CFG ++
          [PortEvent.outb ((ta.current_tag + 1) % 256) ta.id_port]))))),
    (0xe0 ||| eeprom_word ioa.input (ioa.nread + 64)) % 256, ?_, rfl, hlt, hfacts.1,
    hfacts.2.1, ?_, hrange.1, hrange.2.1, hrange.2.2⟩
  · simp only [advance_log, scan_success_events, tagged, List.append_assoc,
      List.cons_append, List.nil_append]
  · rw [hfacts.2.2]
    rfl

/-- The activation byte at the second call on the two-card bus: the word
`0x12` gives the byte `0xf2` and the address `0x320`. -/
theorem fill_t509_device_activation_byte_witness :
    eeprom_word second_bus.input (second_bus.nread - 16) = 0x12 ∧
    second_card.ioaddr = 0x200 + ((0xf2 &&& 0x1f) <<< 4) ∧
    ∃ pre a,
      second_bus.log = pre ++ [PortEvent.outb a second_card.id_port] ∧
      a = (0xe0 ||| eeprom_word second_bus.input (second_bus.nread - 16)) % 256 ∧
      eeprom_word second_bus.input (second_bus.nread - 16) < 65536 ∧
      0xe0 ≤ a ∧ a < 256 ∧
      second_card.ioaddr = 0x200 + ((a &&& 0x1f) <<< 4) ∧
      second_card.ioaddr % 16 = 0 ∧ 0x200 ≤ second_card.ioaddr ∧
      second_card.ioaddr ≤ 0x3f0 :=
  ⟨by decide, by decide,
    fill_t509_device_activation_byte sample_config 0 first_card first_bus 1 second_card
      second_bus (two_cards_second_call 0) (by decide)⟩

/-! ## Termination of the ID-port search -/

/-- C20 as stated fails when the start of the range does not fit in 16 bits:
with start `0x10005`, end `0x000a` and step 1 (so `step > 0` and
`end + step ≤ 65536`) the range has no candidate, yet `id_port` starts at the
truncated value 5 and on a silent bus the search makes five probes, of the
ports 5 to 9, before it returns 0. -/
theorem find_id_port_start_counterexample :
    0 < high_start_config.EP_ID_PORT_INC ∧
    high_start_config.EP_ID_PORT_END + high_start_config.EP_ID_PORT_INC ≤ 65536 ∧
    high_start_config.EP_ID_PORT_END ≤ high_start_config.EP_ID_PORT_START ∧
    candidate_count high_start_config.EP_ID_PORT_START high_start_config.EP_ID_PORT_END
      high_start_config.EP_ID_PORT_INC = 0 ∧
    Option.map (fun r => (r.1, r.2.1.id_port, r.2.2.nread, r.2.2.log))
      (find_id_port high_start_config 6 (zeroed 0) silent_bus) =
        some (0, 10, 5, probes [5, 6, 7, 8, 9]) := by
  refine ⟨by decide, by decide, by decide, by decide, by decide⟩

/-- C20 (amended): for every range with `step > 0`, `start < 65536` and
`end + step ≤ 65536`, and every bus, `find_id_port` returns once the fuel
exceeds the number of candidates `ceil ((end - start) / step)`: it has then
probed the first `n` candidates, with `n` at most that number (and `n = 0`
when `start ≥ end`), every probed address lies below the end of the range,
and `id_port` is left at `start + k * step` for some `k`, below `2 ^ 16`, so
it never wrapped.  When no candidate answers, the result is 0 and `n` is
exactly the number of candidates. -/
theorem find_id_port_terminates (cfg : Config) (fuel : Nat) (t509 : t509_device)
    (io : IoPorts) (hstep : 0 < cfg.EP_ID_PORT_INC) (hstart : cfg.EP_ID_PORT_START < 65536)
    (hend : cfg.EP_ID_PORT_END + cfg.EP_ID_PORT_INC ≤ 65536)
    (hfuel : candidate_count cfg.EP_ID_PORT_START cfg.EP_ID_PORT_END cfg.EP_ID_PORT_INC <
      fuel) :
    ∃ r t1 n k,
      find_id_port cfg fuel t509 io =
        some (r, t1,
          io.advance n (probes (candidates cfg.EP_ID_PORT_START cfg.EP_ID_PORT_INC n))) ∧
      (r = 0 ∨ r = 1) ∧
      n ≤ candidate_count cfg.EP_ID_PORT_START cfg.EP_ID_PORT_END cfg.EP_ID_PORT_INC ∧
      (cfg.EP_ID_PORT_END ≤ cfg.EP_ID_PORT_START → n = 0) ∧
      (∀ p ∈ candidates cfg.EP_ID_PORT_START cfg.EP_ID_PORT_INC n,
        p < cfg.EP_ID_PORT_END ∧ p < 65536) ∧
      t1.id_port = cfg.EP_ID_PORT_START + k * cfg.EP_ID_PORT_INC ∧ k ≤ n ∧
      t1.id_port < 65536 ∧
      ((∀ i,
          i < candidate_count cfg.EP_ID_PORT_START cfg.EP_ID_PORT_END cfg.EP_ID_PORT_INC →
            io.input (io.nread + i) % 2 = 0) →
        r = 0 ∧
        n = candidate_count cfg.EP_ID_PORT_START cfg.EP_ID_PORT_END cfg.EP_ID_PORT_INC) := by
  have hmod : cfg.EP_ID_PORT_START % 65536 = cfg.EP_ID_PORT_START := Nat.mod_eq_of_lt hstart
  have hcand : ∀ n,
      n ≤ candidate_count cfg.EP_ID_PORT_START cfg.EP_ID_PORT_END cfg.EP_ID_PORT_INC →
      ∀ p ∈ candidates cfg.EP_ID_PORT_START cfg.EP_ID_PORT_INC n,
        p < cfg.EP_ID_PORT_END ∧ p < 65536 := by
    intro n hn p hp
    simp only [candidates, List.mem_map, List.mem_range] at hp
    obtain ⟨i, hi, rfl⟩ := hp
    have := candidate_count_below cfg.EP_ID_PORT_START cfg.EP_ID_PORT_END cfg.EP_ID_PORT_INC
      i hstep (by omega)
    omega
  have hempty : cfg.EP_ID_PORT_END ≤ cfg.EP_ID_PORT_START →
      candidate_count cfg.EP_ID_PORT_START cfg.EP_ID_PORT_END cfg.EP_ID_PORT_INC = 0 :=
    candidate_count_empty _ _ _ hstep
  by_cases hex : ∃ j,
      j < candidate_count cfg.EP_ID_PORT_START cfg.EP_ID_PORT_END cfg.EP_ID_PORT_INC ∧
        io.input (io.nread + j) % 2 = 1
  · obtain ⟨hj, hanswer⟩ := Nat.find_spec hex
    have hquiet : ∀ i, i < Nat.find hex → io.input (io.nread + i) % 2 = 0 := by
      intro i hi
      have hmin := Nat.find_min hex hi
      have hi2 : i < candidate_count cfg.EP_ID_PORT_START cfg.EP_ID_PORT_END
          cfg.EP_ID_PORT_INC := by omega
      have : ¬ (io.input (io.nread + i) % 2 = 1) := fun hc => hmin ⟨hi2, hc⟩
      omega
    have hlt := candidate_count_below cfg.EP_ID_PORT_START cfg.EP_ID_PORT_END
      cfg.EP_ID_PORT_INC (Nat.find hex) hstep hj
    have h := find_id_port_loop_found cfg (Nat.find hex) fuel
      { t509 with id_port := cfg.EP_ID_PORT_START % 65536 } io (by omega)
      (by simpa [hmod] using hlt) (by simp only [hmod]; omega) hquiet hanswer
    have h2 : find_id_port cfg fuel t509 io =
        some (1,
          { t509 with
            id_port := (cfg.EP_ID_PORT_START + Nat.find hex * cfg.EP_ID_PORT_INC) },
          io.advance (Nat.find hex + 1)
            (probes (candidates cfg.EP_ID_PORT_START cfg.EP_ID_PORT_INC
              (Nat.find hex + 1)))) := by
      simpa [find_id_port, hmod] using h
    refine ⟨1, _, Nat.find hex + 1, Nat.find hex, h2, Or.inr rfl, hj, ?_,
      hcand _ hj, rfl, Nat.le_succ _, ?_, ?_⟩
    · intro hle
      have hz := hempty hle
      omega
    · simp only
      omega
    · intro hall
      have := hall (Nat.find hex) hj
      omega
  · have hquiet : ∀ i,
        i < candidate_count cfg.EP_ID_PORT_START cfg.EP_ID_PORT_END cfg.EP_ID_PORT_INC →
          io.input (io.nread + i) % 2 = 0 := by
      intro i hi
      have : ¬ (io.input (io.nread + i) % 2 = 1) := fun hc => hex ⟨i, hi, hc⟩
      omega
    have h := find_id_port_exhausted cfg fuel t509 io hstep hstart hend hquiet hfuel
    have hbound := candidate_count_bound cfg.EP_ID_PORT_START cfg.EP_ID_PORT_END
      cfg.EP_ID_PORT_INC
    refine ⟨0, _, _, _, h, Or.inl rfl, Nat.le_refl _, hempty, hcand _ (Nat.le_refl _), rfl,
      Nat.le_refl _, ?_, fun _ => ⟨rfl, rfl⟩⟩
    simp only
    rcases hbound with hb | hb
    · rcases Nat.le_total cfg.EP_ID_PORT_END cfg.EP_ID_PORT_START with hle | hle
      · rw [hempty hle]; omega
      · rw [Nat.max_eq_right hle] at hb
        omega
    · rw [hb]; omega

/-- The search with the sample range on a silent bus: fifteen probes, result
0, `id_port` left at `0x110 + 15 * 0x10`. -/
theorem find_id_port_terminates_witness :
    candidate_count sample_config.EP_ID_PORT_START sample_config.EP_ID_PORT_END
      sample_config.EP_ID_PORT_INC = 15 ∧
    ∃ r t1 n k,
      find_id_port sample_config 16 (zeroed 0) silent_bus =
        some (r, t1,
          silent_bus.advance n
            (probes (candidates sample_config.EP_ID_PORT_START
              sample_config.EP_ID_PORT_INC n))) ∧
      t1.id_port = sample_config.EP_ID_PORT_START + k * sample_config.EP_ID_PORT_INC ∧
      t1.id_port < 65536 ∧ r = 0 ∧ n = 15 := by
  obtain ⟨r, t1, n, k, h1, -, -, -, -, h2, -, h3, h4⟩ :=
    find_id_port_terminates sample_config 16 (zeroed 0) silent_bus
      (by decide) (by decide) (by decide) (by decide)
  have h5 := h4 (fun _ _ => rfl)
  exact ⟨by decide, r, t1, n, k, h1, h2, h3, h5.1, h5.2⟩

end T509
